import Mathlib

/-!
Formal model of the `parametric_tower` geometry engine.

A shallow embedding, over exact rationals, of the pure computational core of
the repository: parameter-state clamping (`src/state.js` = `unnamed/part_000`),
the level-of-detail classifier and the profile text codec (`src/main.js`),
and the profile fitter, ornament placement, Perlin noise and tier layout of
`src/buildTower.js`.  JavaScript IEEE doubles are modelled as `ℚ`; decimal
literals of the source become the corresponding exact rationals.
-/

set_option maxRecDepth 10000
set_option linter.unusedVariables false

/-- A 2-D profile point (`THREE.Vector2` / `{x, y}` objects of the source). -/
structure Pt where
  x : ℚ
  y : ℚ
deriving DecidableEq, Repr

/-! ## Parameter state (`src/state.js`, `unnamed/part_000`) -/

/-- The named numeric knobs of `ranges` in `state.js`, in declaration order. -/
inductive Knob
  | scaleX | scaleY | scaleZ | striations | noiseIntensity | baseScale
  | doorHeightOffset | columnCount | visibleTiers | wallThickness
  | wallSpacing | innerWalls | shrineProtrude | shrineColorIndex
  | lodNear | lodFar | beadEnabled | beadDistance
deriving DecidableEq, Repr

/-- `(min, max, step, default)` bounds of one knob. -/
structure KnobRange where
  min : ℚ
  max : ℚ
  step : ℚ
  default : ℚ
deriving DecidableEq, Repr

/-- The `ranges` table of `state.js`. -/
def ranges : Knob → KnobRange
  | .scaleX => ⟨1/2, 2, 1/10, 1⟩
  | .scaleY => ⟨1/2, 2, 1/10, 1⟩
  | .scaleZ => ⟨1/2, 2, 1/10, 1⟩
  | .striations => ⟨3, 15, 1, 12⟩
  | .noiseIntensity => ⟨0, 30, 1, 14⟩
  | .baseScale => ⟨1/2, 2, 1/10, 12/10⟩
  | .doorHeightOffset => ⟨0, 1, 5/100, 55/100⟩
  | .columnCount => ⟨2, 10, 1, 8⟩
  | .visibleTiers => ⟨1, 15, 1, 15⟩
  | .wallThickness => ⟨40, 200, 5, 40⟩
  | .wallSpacing => ⟨150, 800, 10, 600⟩
  | .innerWalls => ⟨0, 3, 1, 1⟩
  | .shrineProtrude => ⟨0, 1/2, 1/100, 125/1000⟩
  | .shrineColorIndex => ⟨0, 4, 1, 0⟩
  | .lodNear => ⟨300, 2000, 50, 1250⟩
  | .lodFar => ⟨700, 3000, 50, 2500⟩
  | .beadEnabled => ⟨0, 1, 1, 0⟩
  | .beadDistance => ⟨200, 2000, 50, 700⟩

/-- The JavaScript property name of a knob (the key in `ranges`). -/
def knobName : Knob → String
  | .scaleX => "scaleX"
  | .scaleY => "scaleY"
  | .scaleZ => "scaleZ"
  | .striations => "striations"
  | .noiseIntensity => "noiseIntensity"
  | .baseScale => "baseScale"
  | .doorHeightOffset => "doorHeightOffset"
  | .columnCount => "columnCount"
  | .visibleTiers => "visibleTiers"
  | .wallThickness => "wallThickness"
  | .wallSpacing => "wallSpacing"
  | .innerWalls => "innerWalls"
  | .shrineProtrude => "shrineProtrude"
  | .shrineColorIndex => "shrineColorIndex"
  | .lodNear => "lodNear"
  | .lodFar => "lodFar"
  | .beadEnabled => "beadEnabled"
  | .beadDistance => "beadDistance"

/-- All knobs, in the `Object.entries(ranges)` iteration order. -/
def knobList : List Knob :=
  [.scaleX, .scaleY, .scaleZ, .striations, .noiseIntensity, .baseScale,
   .doorHeightOffset, .columnCount, .visibleTiers, .wallThickness,
   .wallSpacing, .innerWalls, .shrineProtrude, .shrineColorIndex,
   .lodNear, .lodFar, .beadEnabled, .beadDistance]

/-- A JavaScript value as seen by `clampState`: a finite number (`num`),
one of the non-finite numbers (`typeof v === "number"` but not
`Number.isFinite`), a value of any other type, or `undefined` (a missing
key). -/
inductive JSVal
  | num (q : ℚ)
  | nan
  | posInfty
  | negInfty
  | nonNumeric
  | undef
deriving DecidableEq, Repr

/-- `typeof value === "number" && Number.isFinite(value)`:
the finite numeric payload, if any. -/
def JSVal.finiteNum : JSVal → Option ℚ
  | .num q => some q
  | _ => none

/-- A raw (untrusted) state object handed to `clampState`: an arbitrary
assignment of JS values to string keys, plus an optional `profilePoints`
array. -/
structure RawState where
  vals : String → JSVal
  profilePoints : Option (List Pt)

/-- The `defaultProfile` point list of `state.js` (29 points). -/
def defaultProfile : List Pt :=
  [⟨29746287/1000000, 17357673/1000000⟩,
   ⟨29746287/1000000, 20080446/1000000⟩,
   ⟨22735149/1000000, 20080446/1000000⟩,
   ⟨22735149/1000000, 22122525/1000000⟩,
   ⟨-21305693/1000000, 22122525/1000000⟩,
   ⟨-21305693/1000000, 20080446/1000000⟩,
   ⟨-28316830/1000000, 20080446/1000000⟩,
   ⟨-28316830/1000000, 17357673/1000000⟩,
   ⟨-31039602/1000000, 17357673/1000000⟩,
   ⟨-31039602/1000000, -17357673/1000000⟩,
   ⟨-28316830/1000000, -17357673/1000000⟩,
   ⟨-28316830/1000000, -20080446/1000000⟩,
   ⟨-21305693/1000000, -20080446/1000000⟩,
   ⟨-21305693/1000000, -22122525/1000000⟩,
   ⟨22735149/1000000, -22122525/1000000⟩,
   ⟨22735149/1000000, -20080446/1000000⟩,
   ⟨29746287/1000000, -20080446/1000000⟩,
   ⟨29746287/1000000, -17357673/1000000⟩,
   ⟨32469059/1000000, -17357673/1000000⟩,
   ⟨32469059/1000000, 17357673/1000000⟩,
   ⟨29746287/1000000, 17357673/1000000⟩,
   ⟨29746287/1000000, 20080446/1000000⟩,
   ⟨22735149/1000000, 20080446/1000000⟩,
   ⟨22735149/1000000, 22122525/1000000⟩,
   ⟨-21305693/1000000, 22122525/1000000⟩,
   ⟨-21305693/1000000, 20080446/1000000⟩,
   ⟨-28316830/1000000, 20080446/1000000⟩,
   ⟨-28316830/1000000, 17357673/1000000⟩,
   ⟨-31039602/1000000, 17357673/1000000⟩]

/-- One knob of `clampState`'s result: starting from the default
(`next = { ...defaultState }`), a key is overwritten with
`Math.min(cfg.max, Math.max(cfg.min, value))` exactly when the raw value is
a finite number. -/
def clampKnob (k : Knob) (raw : RawState) : ℚ :=
  match (raw.vals (knobName k)).finiteNum with
  | some v => min (ranges k).max (max (ranges k).min v)
  | none => (ranges k).default

/-- The fully validated parameter state produced by `clampState`.  Every
field is a total rational (JS never produces a non-finite number here), and
the only fields are the 18 declared knobs plus `profilePoints`. -/
structure TowerState where
  scaleX : ℚ
  scaleY : ℚ
  scaleZ : ℚ
  striations : ℚ
  noiseIntensity : ℚ
  baseScale : ℚ
  doorHeightOffset : ℚ
  columnCount : ℚ
  visibleTiers : ℚ
  wallThickness : ℚ
  wallSpacing : ℚ
  innerWalls : ℚ
  shrineProtrude : ℚ
  shrineColorIndex : ℚ
  lodNear : ℚ
  lodFar : ℚ
  beadEnabled : ℚ
  beadDistance : ℚ
  profilePoints : List Pt

/-- Field access by knob. -/
def TowerState.get (s : TowerState) : Knob → ℚ
  | .scaleX => s.scaleX
  | .scaleY => s.scaleY
  | .scaleZ => s.scaleZ
  | .striations => s.striations
  | .noiseIntensity => s.noiseIntensity
  | .baseScale => s.baseScale
  | .doorHeightOffset => s.doorHeightOffset
  | .columnCount => s.columnCount
  | .visibleTiers => s.visibleTiers
  | .wallThickness => s.wallThickness
  | .wallSpacing => s.wallSpacing
  | .innerWalls => s.innerWalls
  | .shrineProtrude => s.shrineProtrude
  | .shrineColorIndex => s.shrineColorIndex
  | .lodNear => s.lodNear
  | .lodFar => s.lodFar
  | .beadEnabled => s.beadEnabled
  | .beadDistance => s.beadDistance

/-- `clampState(state)` of `state.js`: every declared knob is clamped into
its range when the incoming value is a finite number and reset to its
default otherwise; `profilePoints` is `cloneProfile(state.profilePoints ??
defaultProfile)` (cloning is the identity in this value-level model).  The
function is total: it never throws. -/
def clampState (raw : RawState) : TowerState where
  scaleX := clampKnob .scaleX raw
  scaleY := clampKnob .scaleY raw
  scaleZ := clampKnob .scaleZ raw
  striations := clampKnob .striations raw
  noiseIntensity := clampKnob .noiseIntensity raw
  baseScale := clampKnob .baseScale raw
  doorHeightOffset := clampKnob .doorHeightOffset raw
  columnCount := clampKnob .columnCount raw
  visibleTiers := clampKnob .visibleTiers raw
  wallThickness := clampKnob .wallThickness raw
  wallSpacing := clampKnob .wallSpacing raw
  innerWalls := clampKnob .innerWalls raw
  shrineProtrude := clampKnob .shrineProtrude raw
  shrineColorIndex := clampKnob .shrineColorIndex raw
  lodNear := clampKnob .lodNear raw
  lodFar := clampKnob .lodFar raw
  beadEnabled := clampKnob .beadEnabled raw
  beadDistance := clampKnob .beadDistance raw
  profilePoints := raw.profilePoints.getD defaultProfile

/-- The key set of `clampState`'s result object: it is seeded from
`defaultState` (whose keys are the declared knobs plus `profilePoints`) and
the loop only ever writes declared keys, so no input key outside this list
can appear. -/
def clampStateKeys : List String :=
  knobList.map knobName ++ ["profilePoints"]

/-- The `defaultState` of `state.js`: every knob at its declared default,
with the default profile attached. -/
def defaultState : TowerState :=
  clampState ⟨fun _ => .undef, none⟩

/-! ## Level-of-detail classifier (`detailForPos`, `src/main.js`) -/

/-- The discrete detail level. -/
inductive Detail
  | high
  | medium
  | low
deriving DecidableEq, Repr

/-- `detailForPos(camPos, towerPos, st)` of `main.js`, abstracted over the
(nonnegative real) camera–tower distance it computes:
`near = Math.min(st.lodNear, st.lodFar - 50)`,
`far = Math.max(st.lodFar, near + 50)`, then the two threshold tests. -/
def detailForDist (dist lodNear lodFar : ℚ) : Detail :=
  let near := min lodNear (lodFar - 50)
  let far := max lodFar (near + 50)
  if dist < near then .high
  else if dist < far then .medium
  else .low

/-! ## Column placement (`miniShrineClearance`, `columnPositions`,
`src/buildTower.js`) -/

/-- `THREE.MathUtils.lerp(x, y, t) = (1 - t) * x + t * y`. -/
def lerpMU (x y t : ℚ) : ℚ := (1 - t) * x + t * y

/-- `miniShrineClearance(span) = span * 0.18`. -/
def miniShrineClearance (span : ℚ) : ℚ := span * (18/100)

/-- The candidate column offsets of `columnPositions` before the clearance
filter: `lerp(-span/2 + 8, span/2 - 8, k / Math.max(1, count - 1))` for
`k = 0 .. count-1`. -/
def columnCandidates (span : ℚ) (count : ℕ) : List ℚ :=
  (List.range count).map fun k =>
    lerpMU (-(span/2) + 8) (span/2 - 8) ((k : ℚ) / ((max 1 (count - 1) : ℕ) : ℚ))

/-- The candidates surviving the clearance filter
`Math.abs(p) >= miniShrineClearance(span)`. -/
def columnFiltered (span : ℚ) (count : ℕ) : List ℚ :=
  (columnCandidates span count).filter fun p => decide (miniShrineClearance span ≤ |p|)

/-- `columnPositions(span, count)` of `buildTower.js`: filtered candidates,
with the two fallback branches (empty → `±0.35·span`; singleton → mirror at
`0.4·span` on the opposite side). -/
def columnPositions (span : ℚ) (count : ℕ) : List ℚ :=
  match columnFiltered span count with
  | [] => [-(span * (35/100)), span * (35/100)]
  | [p] => [p, if 0 < p then -(span * (4/10)) else span * (4/10)]
  | ps => ps

/-! ## Mini-shrines (`addMiniShrines`, `src/buildTower.js`) -/

/-- One mini-shrine body: centre position on the tier's local XZ plane and
its box dimensions. -/
structure MiniShrine where
  x : ℚ
  z : ℚ
  w : ℚ
  h : ℚ
  d : ℚ
deriving DecidableEq, Repr

/-- `addMiniShrines(container, width, height, depth, protrudeFactor, color)`:
the four shrine bodies it creates.  `miniW = width * 0.15`,
`miniD = depth * 0.15`, `miniH = height * 1.2`; the centres use the
hard-coded `protrudeX = miniW * 0.75` / `protrudeZ = miniD * 0.75` insets
(the `protrudeFactor` argument is accepted but never read in the body). -/
def addMiniShrines (width height depth protrudeFactor : ℚ) : List MiniShrine :=
  let miniW := width * (15/100)
  let miniD := depth * (15/100)
  let miniH := height * (12/10)
  let protrudeX := miniW * (75/100)
  let protrudeZ := miniD * (75/100)
  [⟨-(width/2) - miniW/2 + protrudeX, 0, miniW, miniH, miniD⟩,
   ⟨width/2 + miniW/2 - protrudeX, 0, miniW, miniH, miniD⟩,
   ⟨0, -(depth/2) - miniD/2 + protrudeZ, miniW, miniH, miniD⟩,
   ⟨0, depth/2 + miniD/2 - protrudeZ, miniW, miniH, miniD⟩]

/-! ## Coherent noise (`ImprovedNoise` from `three/addons`, used by
`noise2d` in `src/buildTower.js`)

`buildTower.js` imports the `ImprovedNoise` class of three.js, Ken
Perlin's reference "improved noise" with its fixed 256-entry permutation
table (doubled).  The class is a dependency outside this repository's
sources, embedded here verbatim from its published implementation. -/

/-- The fixed 256-entry permutation table of `ImprovedNoise`. -/
def permBase : List ℕ :=
  [151, 160, 137, 91, 90, 15, 131, 13, 201, 95, 96, 53, 194, 233, 7, 225,
   140, 36, 103, 30, 69, 142, 8, 99, 37, 240, 21, 10, 23, 190, 6, 148,
   247, 120, 234, 75, 0, 26, 197, 62, 94, 252, 219, 203, 117, 35, 11, 32,
   57, 177, 33, 88, 237, 149, 56, 87, 174, 20, 125, 136, 171, 168, 68, 175,
   74, 165, 71, 134, 139, 48, 27, 166, 77, 146, 158, 231, 83, 111, 229, 122,
   60, 211, 133, 230, 220, 105, 92, 41, 55, 46, 245, 40, 244, 102, 143, 54,
   65, 25, 63, 161, 1, 216, 80, 73, 209, 76, 132, 187, 208, 89, 18, 169,
   200, 196, 135, 130, 116, 188, 159, 86, 164, 100, 109, 198, 173, 186, 3, 64,
   52, 217, 226, 250, 124, 123, 5, 202, 38, 147, 118, 126, 255, 82, 85, 212,
   207, 206, 59, 227, 47, 16, 58, 17, 182, 189, 28, 42, 223, 183, 170, 213,
   119, 248, 152, 2, 44, 154, 163, 70, 221, 153, 101, 155, 167, 43, 172, 9,
   129, 22, 39, 253, 19, 98, 108, 110, 79, 113, 224, 232, 178, 185, 112, 104,
   218, 246, 97, 228, 251, 34, 242, 193, 238, 210, 144, 12, 191, 179, 162, 241,
   81, 51, 145, 235, 249, 14, 239, 107, 49, 192, 214, 31, 181, 199, 106, 157,
   184, 84, 204, 176, 115, 121, 50, 45, 127, 4, 150, 254, 138, 236, 205, 93,
   222, 114, 67, 29, 24, 72, 243, 141, 128, 195, 78, 66, 215, 61, 156, 180]

/-- The doubled table (`_p[256 + i] = _p[i]`). -/
def perm : List ℕ := permBase ++ permBase

/-- Table lookup `_p[i]`. -/
def permAt (i : ℕ) : ℕ := perm.getD i 0

/-- `fade(t) = t³ (t (6t − 15) + 10)`. -/
def fade (t : ℚ) : ℚ := t * t * t * (t * (t * 6 - 15) + 10)

/-- `lerp(t, a, b) = a + t (b − a)` (the local helper of `ImprovedNoise`). -/
def nlerp (t a b : ℚ) : ℚ := a + t * (b - a)

/-- `grad(hash, x, y, z)`: gradient selection from the low 4 bits of the
hash (`h & 1`, `h & 2` become parity tests of `h` and `h / 2`). -/
def grad (hash : ℕ) (x y z : ℚ) : ℚ :=
  let h := hash % 16
  let u := if h < 8 then x else y
  let v := if h < 4 then y else if h = 12 ∨ h = 14 then x else z
  (if h % 2 = 0 then u else -u) + (if (h / 2) % 2 = 0 then v else -v)

/-- `ImprovedNoise.noise(x, y, z)`.  `Math.floor(c) & 255` on the (possibly
negative) integer floor is the nonnegative remainder `⌊c⌋ mod 256`. -/
def improvedNoise (x y z : ℚ) : ℚ :=
  let X := (⌊x⌋ % (256 : ℤ)).toNat
  let Y := (⌊y⌋ % (256 : ℤ)).toNat
  let Z := (⌊z⌋ % (256 : ℤ)).toNat
  let xf := x - ⌊x⌋
  let yf := y - ⌊y⌋
  let zf := z - ⌊z⌋
  let u := fade xf
  let v := fade yf
  let w := fade zf
  let A := permAt X + Y
  let AA := permAt A + Z
  let AB := permAt (A + 1) + Z
  let B := permAt (X + 1) + Y
  let BA := permAt B + Z
  let BB := permAt (B + 1) + Z
  nlerp w
    (nlerp v
      (nlerp u (grad (permAt AA) xf yf zf)
               (grad (permAt BA) (xf - 1) yf zf))
      (nlerp u (grad (permAt AB) xf (yf - 1) zf)
               (grad (permAt BB) (xf - 1) (yf - 1) zf)))
    (nlerp v
      (nlerp u (grad (permAt (AA + 1)) xf yf (zf - 1))
               (grad (permAt (BA + 1)) (xf - 1) yf (zf - 1)))
      (nlerp u (grad (permAt (AB + 1)) xf (yf - 1) (zf - 1))
               (grad (permAt (BB + 1)) (xf - 1) (yf - 1) (zf - 1))))

/-- `noise2d(x, z) = (noiseGen.noise(x, 0, z) + 1) * 0.5` of
`buildTower.js`. -/
def noise2d (x z : ℚ) : ℚ := (improvedNoise x 0 z + 1) * (1/2)

/-! ## Tier layout and ornament gating (`buildTower`, `src/buildTower.js`) -/

/-- `subStepsBase` for outer tier `i`:
`2 + Math.floor(noise2d(i * 0.3, 0) * 2)` (an integer, since the noise
value could in principle make the floor negative). -/
def subStepsInt (i : ℕ) : ℤ :=
  2 + ⌊noise2d ((i : ℚ) * (3/10)) 0 * 2⌋

/-- The per-tier sub-step count after detail gating:
`detail === "low" ? 1 : detail === "medium" ?
Math.max(1, Math.floor(subStepsBase * 0.8)) : subStepsBase`. -/
def subStepsFor (detail : Detail) (i : ℕ) : ℤ :=
  match detail with
  | .low => 1
  | .medium => max 1 ⌊(subStepsInt i : ℚ) * (8/10)⌋
  | .high => subStepsInt i

/-- `tiers = Math.max(1, striations)` (a rational: `clampState` does not
snap values to the step grid). -/
def tierTotal (st : TowerState) : ℚ := max 1 st.striations

/-- The number of loop iterations of
`for (let i = 0; i < tiers && i < visibleTiers; i++)`: the count of
naturals `i` with `i < tiers` and `i < visibleTiers`. -/
def realizedTiers (st : TowerState) : ℕ :=
  (Int.toNat ⌈min (tierTotal st) st.visibleTiers⌉)

/-- One produced sub-step layer of the tower tree with the ornament
classes `buildTower` attaches to it.  `Option ℚ` fields record the count
argument passed when the ornament call is gated in, `none` when the call
is skipped. -/
structure Layer where
  tier : ℕ
  sub : ℕ
  pilasters : Option ℚ
  niches : Bool
  stripes : Bool
  statues : Option ℚ
  miniShrines : Bool
  columns : Option ℚ
  cornice : Bool
  bead : Bool
deriving DecidableEq, Repr

/-- The ornament-bearing layers produced by the double loop of
`buildTower(state, detail, beadVisible)`: for each realized tier `i`,
`subSteps` layers, each with the detail-gated ornament calls
(`addPilasters`/`addNiches`/`addStripes` unless low; `addStatueRow` only on
high; `addMiniShrines` unless low or top tier; `addColumns` unless low;
`addCornice` always; `addBeadRow` on high when `state.beadEnabled` is
truthy and `beadVisible` holds). -/
def towerLayers (st : TowerState) (detail : Detail) (beadVisible : Bool) : List Layer :=
  (List.range (realizedTiers st)).flatMap fun i =>
    let isTop : Bool := decide ((i : ℚ) = min (tierTotal st) st.visibleTiers - 1)
    (List.range (subStepsFor detail i).toNat).map fun j =>
      { tier := i
        sub := j
        pilasters := if detail ≠ .low then some (max 3 (st.columnCount - 1)) else none
        niches := detail ≠ .low
        stripes := detail ≠ .low
        statues := if detail = .high then some (max 3 (st.columnCount - 2)) else none
        miniShrines := !isTop && detail ≠ .low
        columns := if detail ≠ .low then some st.columnCount else none
        cornice := true
        bead := detail = .high && st.beadEnabled ≠ 0 && beadVisible }

/-! ## Profile fitting (`fractalOutline`, `profileToShape`,
`src/buildTower.js`) -/

/-- Minimum of the `x` coordinates (the `minX` accumulator of
`profileToShape`; the `Infinity` seed of the source is replaced by folding
from the first element, which is equivalent on the nonempty lists the
function operates on). -/
def minXOf : List Pt → ℚ
  | [] => 0
  | p :: ps => ps.foldl (fun m q => min m q.x) p.x

/-- Maximum of the `x` coordinates. -/
def maxXOf : List Pt → ℚ
  | [] => 0
  | p :: ps => ps.foldl (fun m q => max m q.x) p.x

/-- Minimum of the `y` coordinates. -/
def minYOf : List Pt → ℚ
  | [] => 0
  | p :: ps => ps.foldl (fun m q => min m q.y) p.y

/-- Maximum of the `y` coordinates. -/
def maxYOf : List Pt → ℚ
  | [] => 0
  | p :: ps => ps.foldl (fun m q => max m q.y) p.y

/-- `spanX = Math.max(1e-3, maxX - minX)`. -/
def spanXOf (pts : List Pt) : ℚ := max (1/1000) (maxXOf pts - minXOf pts)

/-- `spanY = Math.max(1e-3, maxY - minY)`. -/
def spanYOf (pts : List Pt) : ℚ := max (1/1000) (maxYOf pts - minYOf pts)

/-- `effectiveW = Math.max(1e-3, width * (1 - insetFrac))`. -/
def effectiveW (width insetFrac : ℚ) : ℚ := max (1/1000) (width * (1 - insetFrac))

/-- The input normalization of `profileToShape`: an empty (or absent)
profile is replaced by `defaultProfile` (the `.map` clone is the identity
here). -/
def srcPts (profilePoints : List Pt) : List Pt :=
  if profilePoints.isEmpty then defaultProfile else profilePoints

/-- The orientation choice of `profileToShape`:
`scaleB.min > scaleA.min`, where each candidate's `min` is the limiting
(smaller) of its two per-axis ratios. -/
def rotatedChoice (pts : List Pt) (width depth insetFrac : ℚ) : Bool :=
  let spanX := spanXOf pts
  let spanY := spanYOf pts
  let effW := effectiveW width insetFrac
  let effD := effectiveW depth insetFrac
  decide (min (effW / spanX) (effD / spanY) < min (effW / spanY) (effD / spanX))

/-- The scaling/rotation map of `profileToShape`: recentre on the
bounding-box centre `(cx, cy)`, then apply the chosen candidate's two
per-axis factors `chosen.sx`, `chosen.sy` (rotated:
`(py·sx, −px·sy)`; direct: `(px·sx, py·sy)`). -/
def scaledPts (pts : List Pt) (width depth insetFrac : ℚ) : List Pt :=
  let spanX := spanXOf pts
  let spanY := spanYOf pts
  let effW := effectiveW width insetFrac
  let effD := effectiveW depth insetFrac
  let cx := (minXOf pts + maxXOf pts) / 2
  let cy := (minYOf pts + maxYOf pts) / 2
  if rotatedChoice pts width depth insetFrac then
    pts.map fun p => ⟨(p.y - cy) * (effW / spanY), -((p.x - cx)) * (effD / spanX)⟩
  else
    pts.map fun p => ⟨(p.x - cx) * (effW / spanX), (p.y - cy) * (effD / spanY)⟩

/-- Consecutive de-duplication: each point is dropped exactly when it
equals the last point kept (`!p.equals(unique[unique.length - 1])`). -/
def dedupConsec : List Pt → List Pt
  | [] => []
  | p :: ps => p :: dedupGo p ps
where
  dedupGo (prev : Pt) : List Pt → List Pt
    | [] => []
    | q :: qs => if q = prev then dedupGo prev qs else q :: dedupGo q qs

/-- Loop closing: append a clone of the first point when the list is
nonempty and not already closed. -/
def closeLoop (l : List Pt) : List Pt :=
  match l with
  | [] => []
  | p :: _ => if l.getLast? = some p then l else l ++ [p]

/-- `Math.pow(q, n)` for natural exponents, by structural recursion (used
in place of the `Monoid.npow` power so that concrete instances evaluate). -/
def jsPow (q : ℚ) : ℕ → ℚ
  | 0 => 1
  | n + 1 => jsPow q n * q

/-- The raw point sequence pushed by
`fractalOutline(width, depth, levels, shrink)` before de-duplication:
`xs[i] = (width/2)·shrink^i`, `zs[i] = (depth/2)·shrink^i`; out-of-range
accesses (only possible for `levels = 0`, never used) yield `0`. -/
def fractalPts (width depth : ℚ) (levels : ℕ) (shrink : ℚ) : List Pt :=
  let xs := (List.range levels).map fun i => (width / 2) * jsPow shrink i
  let zs := (List.range levels).map fun i => (depth / 2) * jsPow shrink i
  let xg := fun i => xs.getD i 0
  let zg := fun i => zs.getD i 0
  let top := (List.range (levels - 1)).flatMap fun i =>
    [⟨xg i, -(zg (i + 1))⟩, ⟨-(xg (i + 1)), -(zg (i + 1))⟩]
  let left := ((List.range (levels - 1)).map fun k => levels - 1 - k).flatMap fun i =>
    [⟨-(xg i), zg (i - 1)⟩, ⟨-(xg (i - 1)), zg (i - 1)⟩]
  let bottom := (List.range (levels - 1)).flatMap fun i =>
    [⟨xg (i + 1), zg i⟩, ⟨xg (i + 1), zg (i + 1)⟩]
  let right := ((List.range (levels - 1)).map fun k => levels - 1 - k).flatMap fun i =>
    [⟨xg i, -(zg (i - 1))⟩, ⟨xg (i - 1), -(zg (i - 1))⟩]
  ⟨xg 0, -(zg 0)⟩ :: top ++ [⟨-(xg (levels - 1)), -(zg (levels - 1))⟩] ++
    left ++ [⟨-(xg 0), zg 0⟩] ++ bottom ++ [⟨xg (levels - 1), zg (levels - 1)⟩] ++ right

/-- `fractalOutline(width, depth, levels, shrink)` of `buildTower.js`: the
stepped fallback outline — the raw points, de-duplicated and closed. -/
def fractalOutline (width depth : ℚ) (levels : ℕ) (shrink : ℚ) : List Pt :=
  closeLoop (dedupConsec (fractalPts width depth levels shrink))

/-- `profileToShape(profilePoints, width, depth, fallbackSteps, insetFrac)`
of `buildTower.js`, returning the vertex list of the produced
`THREE.Shape`: the scaled profile after de-duplication and closing, or the
`fractalOutline(width, depth, fallbackSteps, 0.82)` fallback when fewer
than 4 points remain.  Total — no error can reach the caller. -/
def profileToShape (profilePoints : List Pt) (width depth : ℚ)
    (fallbackSteps : ℕ) (insetFrac : ℚ) : List Pt :=
  let pts := srcPts profilePoints
  let closed := closeLoop (dedupConsec (scaledPts pts width depth insetFrac))
  if closed.length < 4 then fractalOutline width depth fallbackSteps (82/100)
  else closed

/-- The fit step as the specification describes it (refinement candidate
for the source's `scaledPts`): the same orientation choice and recentring,
but applying the single uniform limiting scale — the candidate's `min`
ratio — on both axes, preserving the aspect ratio. -/
def scaledPtsSpecUniform (pts : List Pt) (width depth insetFrac : ℚ) : List Pt :=
  let spanX := spanXOf pts
  let spanY := spanYOf pts
  let effW := effectiveW width insetFrac
  let effD := effectiveW depth insetFrac
  let cx := (minXOf pts + maxXOf pts) / 2
  let cy := (minYOf pts + maxYOf pts) / 2
  if rotatedChoice pts width depth insetFrac then
    let s := min (effW / spanY) (effD / spanX)
    pts.map fun p => ⟨(p.y - cy) * s, -((p.x - cx)) * s⟩
  else
    let s := min (effW / spanX) (effD / spanY)
    pts.map fun p => ⟨(p.x - cx) * s, (p.y - cy) * s⟩

/-! ## Profile text codec (`parseProfileText`, `pointsToString`,
`src/main.js`)

Text is modelled as `List Char`.  `Number.prototype.toFixed(6)` follows the
ECMAScript algorithm on exact rationals: a leading `-` for a negative
receiver, then the decimal expansion of the integer `n` minimizing
`|n/10⁶ − |x||` (ties to the larger `n`), with exactly six fraction
digits. -/

/-- A decimal digit as a character (`48` is the code point of `'0'`). -/
def digitToChar (d : ℕ) : Char := Char.ofNat (48 + d)

/-- A character as a decimal digit. -/
def charToDigit (c : Char) : Option ℕ :=
  if '0' ≤ c ∧ c ≤ '9' then some (c.toNat - 48) else none

/-- The decimal expansion of a natural number, most significant digit
first (`"0"` for zero), as JavaScript number-to-string produces for
integers below 10²¹. -/
def natToChars (n : ℕ) : List Char :=
  if n = 0 then ['0'] else (Nat.digits 10 n).reverse.map digitToChar

/-- The digit values of a character list, `none` if any character is not a
digit. -/
def digitsOfChars : List Char → Option (List ℕ)
  | [] => some []
  | c :: cs =>
    match charToDigit c, digitsOfChars cs with
    | some d, some ds => some (d :: ds)
    | _, _ => none

/-- Decimal digit-string to natural number; `none` unless the string is
nonempty and all digits. -/
def charsToNat (cs : List Char) : Option ℕ :=
  if cs.isEmpty then none
  else (digitsOfChars cs).map fun ds => Nat.ofDigits 10 ds.reverse

/-- The rounding of `toFixed(6)` on a nonnegative rational: the integer
`n` with `n/10⁶` closest to `x`, ties towards the larger `n`. -/
def round6 (x : ℚ) : ℕ := (⌊x * 1000000 + 1/2⌋).toNat

/-- Left-pad with `'0'` to six characters (the fraction field of
`toFixed(6)`). -/
def padLeft6 (cs : List Char) : List Char :=
  List.replicate (6 - cs.length) '0' ++ cs

/-- `q.toFixed(6)` on exact rationals. -/
def toFixed6 (q : ℚ) : List Char :=
  let n := round6 |q|
  let body := natToChars (n / 1000000) ++ '.' :: padLeft6 (natToChars (n % 1000000))
  if q < 0 then '-' :: body else body

/-- One line of `pointsToString`: `x.toFixed(6) + ", " + y.toFixed(6)`. -/
def fmtPoint (p : Pt) : List Char :=
  toFixed6 p.x ++ ',' :: ' ' :: toFixed6 p.y

/-- `Array.prototype.join("\n")`. -/
def joinNL : List (List Char) → List Char
  | [] => []
  | [l] => l
  | l :: ls => l ++ '\n' :: joinNL ls

/-- `pointsToString(points)` of `main.js`. -/
def pointsToString (pts : List Pt) : List Char :=
  joinNL (pts.map fmtPoint)

/-- Splitting on single separator characters, keeping empty pieces
(`String.prototype.split` with a single-character alternative regex). -/
def splitOnPred (sep : Char → Bool) : List Char → List (List Char)
  | [] => [[]]
  | c :: cs =>
    match splitOnPred sep cs with
    | [] => [[]]
    | t :: ts => if sep c then [] :: t :: ts else (c :: t) :: ts

/-- The line separators of `parseProfileText`: `/\n|;/`. -/
def lineSep (c : Char) : Bool := c == '\n' || c == ';'

/-- The token separators of `parseProfileText`: `/[ ,\t]+/` (splitting on
single characters and then discarding empty pieces is equivalent to
splitting on runs plus `filter(Boolean)`). -/
def tokenSep (c : Char) : Bool := c == ' ' || c == ',' || c == '\t'

/-- JavaScript `String.prototype.trim` whitespace (the characters that can
occur in this codec's inputs). -/
def wsChar (c : Char) : Bool := c == ' ' || c == '\t' || c == '\n' || c == '\r'

/-- `s.trim()`. -/
def trimChars (cs : List Char) : List Char :=
  ((cs.dropWhile wsChar).reverse.dropWhile wsChar).reverse

/-- `Number(token)` restricted to optionally signed plain decimal
literals — the only forms `pointsToString` emits and hence the only ones
the round-trip properties exercise; other numeric syntaxes accepted by
JavaScript (exponents, hex, leading `+`, bare `.`) are out of this model's
scope and map to `none` like any non-numeric token. -/
def jsUnsigned (cs : List Char) : Option ℚ :=
  let intPart := cs.takeWhile (fun c => c ≠ '.')
  let rest := cs.dropWhile (fun c => c ≠ '.')
  if rest.isEmpty then (charsToNat intPart).map fun n => (n : ℚ)
  else
    match charsToNat intPart, charsToNat rest.tail with
    | some a, some b => some ((a : ℚ) + (b : ℚ) / jsPow 10 rest.tail.length)
    | _, _ => none

/-- `Number(token)` with an optional leading sign (see `jsUnsigned`): the
first character of `rest` is `'.'` whenever `rest` is nonempty, so
`rest.tail` is the fraction digit field. -/
def jsNumber (cs : List Char) : Option ℚ :=
  if cs.head? = some '-' then (jsUnsigned cs.tail).map fun q => -q
  else jsUnsigned cs

/-- One line of `parseProfileText`: split into tokens, require at least
two, parse both leading tokens as finite numbers (`Number.isFinite`
filtering), ignore the rest. -/
def parseLine (line : List Char) : Option Pt :=
  match (splitOnPred tokenSep line).filter (fun t => !t.isEmpty) with
  | t1 :: t2 :: _ =>
    match jsNumber t1, jsNumber t2 with
    | some x, some y => some ⟨x, y⟩
    | _, _ => none
  | _ => none

/-- `parseProfileText(text)` of `main.js`: split on `\n`/`;`, trim, drop
empty lines, collect the per-line points (lines with fewer than two tokens
or non-numeric leading tokens contribute nothing). -/
def parseProfileText (cs : List Char) : List Pt :=
  (((splitOnPred lineSep cs).map trimChars).filter (fun l => !l.isEmpty)).filterMap parseLine

/-- The value `Number` reads back from `toFixed6 q`:
`sign(q) · round6(|q|) / 10⁶`. -/
def reparsed6 (q : ℚ) : ℚ :=
  if q < 0 then -((round6 (-q) : ℚ) / 1000000) else (round6 q : ℚ) / 1000000

/-- The rational whose serialization drops the sign of a negative tiny
value: a coordinate `x` is sign-degenerate when `x < 0` but `toFixed(6)`
prints `-0.000000`, which `Number` reads back as the sign-less zero. -/
def signDegenerate (x : ℚ) : Prop := x < 0 ∧ round6 (-x) = 0

instance : DecidablePred signDegenerate := fun x => by
  unfold signDegenerate
  infer_instance

/-! # Theorems -/

/-! ## Shared helper lemmas -/

lemma get_clampState (raw : RawState) (k : Knob) :
    (clampState raw).get k = clampKnob k raw := by
  cases k <;> rfl

lemma range_min_le_max (k : Knob) : (ranges k).min ≤ (ranges k).max := by
  cases k <;> norm_num [ranges]

lemma range_default_mem (k : Knob) :
    (ranges k).min ≤ (ranges k).default ∧ (ranges k).default ≤ (ranges k).max := by
  cases k <;> constructor <;> norm_num [ranges]

/-! ## C1 — `clampState` is total and lands in range -/

/-- C1: for every input state — out-of-range, non-numeric and non-finite
values included — `clampState` returns (as a total function, hence without
raising) a state in which each of the 18 named numeric knobs is a rational
(hence finite) value inside its declared `[min, max]` range. -/
theorem clampState_inRange (raw : RawState) (k : Knob) :
    (ranges k).min ≤ (clampState raw).get k ∧
    (clampState raw).get k ≤ (ranges k).max := by
  rw [get_clampState]
  unfold clampKnob
  cases h : (raw.vals (knobName k)).finiteNum with
  | none => exact range_default_mem k
  | some v =>
    exact ⟨le_min (range_min_le_max k) (le_max_left _ _), min_le_left _ _⟩

/-! ## C10 — invalid values become defaults; no undeclared keys -/

/-- C10: any knob whose incoming value is missing, not of number type, or
non-finite gets that knob's declared default (not merely some in-range
value), and every key of the output object is a declared knob name or
`profilePoints` — so undeclared input keys never appear in the output. -/
theorem clampState_defaults_and_keys :
    (∀ (raw : RawState) (k : Knob), (raw.vals (knobName k)).finiteNum = none →
      (clampState raw).get k = (ranges k).default) ∧
    (∀ key ∈ clampStateKeys, key ∈ knobList.map knobName ∨ key = "profilePoints") := by
  constructor
  · intro raw k h
    rw [get_clampState]
    unfold clampKnob
    rw [h]
  · intro key hk
    rw [clampStateKeys, List.mem_append] at hk
    rcases hk with hk | hk
    · exact Or.inl hk
    · exact Or.inr (List.mem_singleton.mp hk)

/-- Witness for C10 at a concrete non-numeric raw state and key. -/
theorem clampState_defaults_and_keys_witness :
    (clampState ⟨fun _ => JSVal.nan, none⟩).get Knob.scaleX = (ranges Knob.scaleX).default ∧
    ("striations" ∈ knobList.map knobName ∨ "striations" = "profilePoints") := by
  exact ⟨clampState_defaults_and_keys.1 ⟨fun _ => JSVal.nan, none⟩ Knob.scaleX rfl,
    clampState_defaults_and_keys.2 "striations" (by decide)⟩

/-! ## C2 — LOD classifier thresholds -/

/-- C2 counterexample: with `lodNear = 100 < lodFar = 120` and distance
`80 < lodNear`, the claim demands `High`, but `detailForPos` classifies
against `near = min(100, 120 − 50) = 70` and returns `Medium`. -/
theorem detailForDist_counterexample :
    (100 : ℚ) < 120 ∧ (80 : ℚ) < 100 ∧
    detailForDist 80 100 120 = Detail.medium ∧
    detailForDist 80 100 120 ≠ Detail.high :=
  of_decide_eq_true (by with_unfolding_all rfl)

/-- C2 amended: the classifier first normalizes the thresholds to
`near' = min(lodNear, lodFar − 50)` and `far' = max(lodFar, near' + 50)`,
which always satisfy `near' < far'` (a gap of at least 50); classification
is High iff `d < near'`, Medium iff `near' ≤ d < far'`, Low iff
`far' ≤ d`.  Whenever `lodNear + 50 ≤ lodFar` the normalized thresholds
coincide with `lodNear`/`lodFar` and the claimed equivalences hold
verbatim; for `lodFar − 50 < lodNear < lodFar` they fail (see the
counterexample). -/
theorem detailForDist_corrected (d n f : ℚ) :
    min n (f - 50) < max f (min n (f - 50) + 50) ∧
    (detailForDist d n f = Detail.high ↔ d < min n (f - 50)) ∧
    (detailForDist d n f = Detail.medium ↔
      min n (f - 50) ≤ d ∧ d < max f (min n (f - 50) + 50)) ∧
    (detailForDist d n f = Detail.low ↔ max f (min n (f - 50) + 50) ≤ d) ∧
    (n + 50 ≤ f →
      ((detailForDist d n f = Detail.high ↔ d < n) ∧
       (detailForDist d n f = Detail.medium ↔ n ≤ d ∧ d < f) ∧
       (detailForDist d n f = Detail.low ↔ f ≤ d))) := by
  have hgap : min n (f - 50) < max f (min n (f - 50) + 50) :=
    lt_of_lt_of_le (by linarith) (le_max_right _ _)
  have hiffs :
      (detailForDist d n f = Detail.high ↔ d < min n (f - 50)) ∧
      (detailForDist d n f = Detail.medium ↔
        min n (f - 50) ≤ d ∧ d < max f (min n (f - 50) + 50)) ∧
      (detailForDist d n f = Detail.low ↔ max f (min n (f - 50) + 50) ≤ d) := by
    unfold detailForDist
    by_cases h1 : d < min n (f - 50)
    · simp only [if_pos h1]
      refine ⟨by simp [h1], ?_, ?_⟩
      · simp only [show (Detail.high = Detail.medium) = False by simp, false_iff]
        intro hc
        exact absurd h1 (not_lt.mpr hc.1)
      · simp only [show (Detail.high = Detail.low) = False by simp, false_iff]
        intro hc
        exact absurd h1 (not_lt.mpr (le_trans (le_of_lt hgap) hc))
    · by_cases h2 : d < max f (min n (f - 50) + 50)
      · simp only [if_neg h1, if_pos h2]
        refine ⟨by simp [h1], by simp [not_lt.mp h1, h2], ?_⟩
        simp only [show (Detail.medium = Detail.low) = False by simp, false_iff]
        exact fun hc => absurd h2 (not_lt.mpr hc)
      · simp only [if_neg h1, if_neg h2]
        refine ⟨by simp [h1], ?_, by simp [not_lt.mp h2]⟩
        simp only [show (Detail.low = Detail.medium) = False by simp, false_iff]
        exact fun hc => absurd hc.2 h2
  refine ⟨hgap, hiffs.1, hiffs.2.1, hiffs.2.2, ?_⟩
  intro hnf
  have hmin : min n (f - 50) = n := min_eq_left (by linarith)
  have hmax : max f (n + 50) = f := max_eq_left (by linarith)
  rw [hmin, hmax] at hiffs
  exact hiffs

/-- Witness for C2's amended theorem at `d = 100`, `lodNear = 300`,
`lodFar = 1000` (well-separated thresholds, High zone). -/
theorem detailForDist_corrected_witness :
    (detailForDist 100 300 1000 = Detail.high ↔ (100 : ℚ) < 300) ∧
    (detailForDist 100 300 1000 = Detail.medium ↔ (300 : ℚ) ≤ 100 ∧ (100 : ℚ) < 1000) ∧
    (detailForDist 100 300 1000 = Detail.low ↔ (1000 : ℚ) ≤ 100) :=
  (detailForDist_corrected 100 300 1000).2.2.2.2 (by norm_num)

/-! ## C6 — column positions -/

/-- C6: for every `span > 0` and every count, `columnPositions` returns at
least 2 positions; every position kept by the clearance filter satisfies
`|p| ≥ 0.18·span`; an emptied filter falls back to the symmetric pair at
`±0.35·span`; a single survivor is mirrored at `0.4·span` on the opposite
side. -/
theorem columnPositions_spec (span : ℚ) (count : ℕ) (hspan : 0 < span) :
    2 ≤ (columnPositions span count).length ∧
    (∀ p ∈ columnFiltered span count, span * (18/100) ≤ |p|) ∧
    (columnFiltered span count = [] →
      columnPositions span count = [-(span * (35/100)), span * (35/100)]) ∧
    (∀ p, columnFiltered span count = [p] →
      columnPositions span count =
        [p, if 0 < p then -(span * (4/10)) else span * (4/10)]) := by
  refine ⟨?_, ?_, ?_, ?_⟩
  · unfold columnPositions
    cases h : columnFiltered span count with
    | nil => simp
    | cons p ps =>
      cases ps with
      | nil => simp
      | cons q qs => simp
  · intro p hp
    have h := List.of_mem_filter hp
    simpa [miniShrineClearance] using of_decide_eq_true h
  · intro h
    unfold columnPositions
    rw [h]
  · intro p h
    unfold columnPositions
    rw [h]

/-- Witness for C6 at `span = 100`, `count = 4`: the filter keeps `±42`,
both clearing `0.18·span = 18`. -/
theorem columnPositions_spec_witness :
    (0 : ℚ) < 100 ∧ 2 ≤ (columnPositions 100 4).length ∧
    (100 : ℚ) * (18/100) ≤ |(-42 : ℚ)| := by
  refine ⟨by norm_num, (columnPositions_spec 100 4 (by norm_num)).1, ?_⟩
  exact (columnPositions_spec 100 4 (by norm_num)).2.1 (-42)
    (of_decide_eq_true (by with_unfolding_all rfl))

/-! ## C8 — mini-shrines -/

/-- C8 counterexample: the `protrudeFactor` argument (the `shrineProtrude`
knob) is never read — moving it from its default `0.125` to `0.5` leaves
all four shrines unchanged — and the protrusion of the `−X` shrine beyond
its face is `miniW/4` (a quarter of the shrine span protrudes), not the
claimed `(7/8)·miniW`. -/
theorem addMiniShrines_counterexample :
    addMiniShrines 100 50 80 (125/1000) = addMiniShrines 100 50 80 (1/2) ∧
    ¬((-(100/2 : ℚ)) -
        (((addMiniShrines 100 50 80 (125/1000)).getD 0 ⟨0,0,0,0,0⟩).x -
          ((addMiniShrines 100 50 80 (125/1000)).getD 0 ⟨0,0,0,0,0⟩).w / 2) =
      (7/8) * ((addMiniShrines 100 50 80 (125/1000)).getD 0 ⟨0,0,0,0,0⟩).w) :=
  of_decide_eq_true (by with_unfolding_all rfl)

/-- C8 amended: `addMiniShrines` always creates exactly 4 shrines, one
centred on each of the `±X` and `±Z` faces (centres at `±(37/80)·width`
on the X faces, `±(37/80)·depth` on the Z faces), each protruding exactly
one quarter of its own span beyond the face plane; the protrusion is fixed
by the hard-coded `0.75` inset — the `protrudeFactor` parameter (and hence
the `shrineProtrude` knob) has no effect. -/
theorem addMiniShrines_spec (width height depth f : ℚ) :
    addMiniShrines width height depth f = addMiniShrines width height depth (125/1000) ∧
    (addMiniShrines width height depth f).length = 4 ∧
    (addMiniShrines width height depth f).map (fun s => (s.x, s.z)) =
      [(-((37/80) * width), 0), ((37/80) * width, 0),
       (0, -((37/80) * depth)), (0, (37/80) * depth)] ∧
    (∀ s ∈ addMiniShrines width height depth f,
      s.w = width * (15/100) ∧ s.d = depth * (15/100) ∧ s.h = height * (12/10)) ∧
    (-(width/2)) -
        (((addMiniShrines width height depth f).getD 0 ⟨0,0,0,0,0⟩).x -
          ((addMiniShrines width height depth f).getD 0 ⟨0,0,0,0,0⟩).w / 2) =
      ((addMiniShrines width height depth f).getD 0 ⟨0,0,0,0,0⟩).w / 4 ∧
    (((addMiniShrines width height depth f).getD 1 ⟨0,0,0,0,0⟩).x +
          ((addMiniShrines width height depth f).getD 1 ⟨0,0,0,0,0⟩).w / 2) -
        width/2 =
      ((addMiniShrines width height depth f).getD 1 ⟨0,0,0,0,0⟩).w / 4 ∧
    (-(depth/2)) -
        (((addMiniShrines width height depth f).getD 2 ⟨0,0,0,0,0⟩).z -
          ((addMiniShrines width height depth f).getD 2 ⟨0,0,0,0,0⟩).d / 2) =
      ((addMiniShrines width height depth f).getD 2 ⟨0,0,0,0,0⟩).d / 4 ∧
    (((addMiniShrines width height depth f).getD 3 ⟨0,0,0,0,0⟩).z +
          ((addMiniShrines width height depth f).getD 3 ⟨0,0,0,0,0⟩).d / 2) -
        depth/2 =
      ((addMiniShrines width height depth f).getD 3 ⟨0,0,0,0,0⟩).d / 4 := by
  refine ⟨rfl, rfl, ?_, ?_, ?_, ?_, ?_, ?_⟩
  · simp only [addMiniShrines, List.map_cons, List.map_nil]
    norm_num
    refine ⟨by ring, by ring, by ring, by ring⟩
  · intro s hs
    simp only [addMiniShrines, List.mem_cons, List.not_mem_nil, or_false] at hs
    rcases hs with rfl | rfl | rfl | rfl <;> exact ⟨rfl, rfl, rfl⟩
  · simp only [addMiniShrines, List.getD]
    norm_num
    ring
  · simp only [addMiniShrines, List.getD]
    norm_num
    ring
  · simp only [addMiniShrines, List.getD]
    norm_num
    ring
  · simp only [addMiniShrines, List.getD]
    norm_num
    ring

/-- Witness for C8's amended theorem at concrete sizes. -/
theorem addMiniShrines_spec_witness :
    (addMiniShrines 200 60 120 (1/4)).length = 4 ∧
    ((addMiniShrines 200 60 120 (1/4)).getD 0 ⟨0,0,0,0,0⟩).w = 200 * (15/100) :=
  ⟨(addMiniShrines_spec 200 60 120 (1/4)).2.1,
    ((addMiniShrines_spec 200 60 120 (1/4)).2.2.2.1
      (⟨-(200/2) - (200 * (15/100))/2 + (200 * (15/100)) * (75/100), 0,
         200 * (15/100), 60 * (12/10), 120 * (15/100)⟩)
      (of_decide_eq_true (by with_unfolding_all rfl))).1
⟩

/-! ## C5 — tier layout at `striations = 7`, cap 15, High detail -/

/-- C5: with `striations = 7` and `visibleTiers = 15` (the default cap) at
High detail, exactly 7 outer tiers are realized; each tier's sub-step
count `subStepsInt i = 2 + ⌊noise2d(i·0.3, 0)·2⌋` evaluates to
`[3, 3, 2, 2, 3, 3, 3]`, all in `{2, 3}`; the produced layer descriptors
are exactly the 19 `(tier, sub)` pairs of those counts, and their total
equals the sum of the per-tier sub-step counts. -/
theorem towerLayers_seven_tiers :
    realizedTiers { defaultState with striations := 7 } = 7 ∧
    (List.range 7).map subStepsInt = [3, 3, 2, 2, 3, 3, 3] ∧
    (((List.range 7).map subStepsInt).all fun s => decide (s = 2 ∨ s = 3)) = true ∧
    (towerLayers { defaultState with striations := 7 } .high true).map
        (fun L => (L.tier, L.sub)) =
      [(0,0),(0,1),(0,2),(1,0),(1,1),(1,2),(2,0),(2,1),(3,0),(3,1),
       (4,0),(4,1),(4,2),(5,0),(5,1),(5,2),(6,0),(6,1),(6,2)] ∧
    (towerLayers { defaultState with striations := 7 } .high true).length =
      ((List.range 7).map fun i => (subStepsInt i).toNat).sum :=
  of_decide_eq_true (by with_unfolding_all rfl)

/-! ## Bounding-box fold helpers -/

lemma foldlMin_le {α : Type} (g : α → ℚ) (l : List α) (a : ℚ) :
    l.foldl (fun m q => min m (g q)) a ≤ a ∧
    ∀ x ∈ l, l.foldl (fun m q => min m (g q)) a ≤ g x := by
  induction l generalizing a with
  | nil => simp
  | cons q qs ih =>
    simp only [List.foldl_cons]
    obtain ⟨h1, h2⟩ := ih (min a (g q))
    refine ⟨le_trans h1 (min_le_left _ _), ?_⟩
    intro x hx
    rcases List.mem_cons.mp hx with rfl | hx
    · exact le_trans h1 (min_le_right _ _)
    · exact h2 x hx

lemma foldlMin_mem {α : Type} (g : α → ℚ) (l : List α) (a : ℚ) :
    l.foldl (fun m q => min m (g q)) a = a ∨
    ∃ x ∈ l, l.foldl (fun m q => min m (g q)) a = g x := by
  induction l generalizing a with
  | nil => simp
  | cons q qs ih =>
    simp only [List.foldl_cons]
    rcases ih (min a (g q)) with h | ⟨x, hx, hfx⟩
    · rcases min_choice a (g q) with hm | hm
      · exact Or.inl (h.trans hm)
      · exact Or.inr ⟨q, List.mem_cons_self q qs, h.trans hm⟩
    · exact Or.inr ⟨x, List.mem_cons_of_mem q hx, hfx⟩

lemma foldlMax_ge {α : Type} (g : α → ℚ) (l : List α) (a : ℚ) :
    a ≤ l.foldl (fun m q => max m (g q)) a ∧
    ∀ x ∈ l, g x ≤ l.foldl (fun m q => max m (g q)) a := by
  induction l generalizing a with
  | nil => simp
  | cons q qs ih =>
    simp only [List.foldl_cons]
    obtain ⟨h1, h2⟩ := ih (max a (g q))
    refine ⟨le_trans (le_max_left _ _) h1, ?_⟩
    intro x hx
    rcases List.mem_cons.mp hx with rfl | hx
    · exact le_trans (le_max_right _ _) h1
    · exact h2 x hx

lemma foldlMax_mem {α : Type} (g : α → ℚ) (l : List α) (a : ℚ) :
    l.foldl (fun m q => max m (g q)) a = a ∨
    ∃ x ∈ l, l.foldl (fun m q => max m (g q)) a = g x := by
  induction l generalizing a with
  | nil => simp
  | cons q qs ih =>
    simp only [List.foldl_cons]
    rcases ih (max a (g q)) with h | ⟨x, hx, hfx⟩
    · rcases max_choice a (g q) with hm | hm
      · exact Or.inl (h.trans hm)
      · exact Or.inr ⟨q, List.mem_cons_self q qs, h.trans hm⟩
    · exact Or.inr ⟨x, List.mem_cons_of_mem q hx, hfx⟩

lemma minXOf_le {p : Pt} {pts : List Pt} (hp : p ∈ pts) : minXOf pts ≤ p.x := by
  cases pts with
  | nil => cases hp
  | cons q qs =>
    rcases List.mem_cons.mp hp with heq | hp
    · rw [heq]; exact (foldlMin_le Pt.x qs q.x).1
    · exact (foldlMin_le Pt.x qs q.x).2 p hp

lemma le_maxXOf {p : Pt} {pts : List Pt} (hp : p ∈ pts) : p.x ≤ maxXOf pts := by
  cases pts with
  | nil => cases hp
  | cons q qs =>
    rcases List.mem_cons.mp hp with heq | hp
    · rw [heq]; exact (foldlMax_ge Pt.x qs q.x).1
    · exact (foldlMax_ge Pt.x qs q.x).2 p hp

lemma minYOf_le {p : Pt} {pts : List Pt} (hp : p ∈ pts) : minYOf pts ≤ p.y := by
  cases pts with
  | nil => cases hp
  | cons q qs =>
    rcases List.mem_cons.mp hp with heq | hp
    · rw [heq]; exact (foldlMin_le Pt.y qs q.y).1
    · exact (foldlMin_le Pt.y qs q.y).2 p hp

lemma le_maxYOf {p : Pt} {pts : List Pt} (hp : p ∈ pts) : p.y ≤ maxYOf pts := by
  cases pts with
  | nil => cases hp
  | cons q qs =>
    rcases List.mem_cons.mp hp with heq | hp
    · rw [heq]; exact (foldlMax_ge Pt.y qs q.y).1
    · exact (foldlMax_ge Pt.y qs q.y).2 p hp

lemma exists_minXOf {pts : List Pt} (hne : pts ≠ []) :
    ∃ p ∈ pts, p.x = minXOf pts := by
  cases pts with
  | nil => exact absurd rfl hne
  | cons q qs =>
    rcases foldlMin_mem Pt.x qs q.x with h | ⟨x, hx, hfx⟩
    · exact ⟨q, List.mem_cons_self q qs, h.symm⟩
    · exact ⟨x, List.mem_cons_of_mem q hx, hfx.symm⟩

lemma exists_maxXOf {pts : List Pt} (hne : pts ≠ []) :
    ∃ p ∈ pts, p.x = maxXOf pts := by
  cases pts with
  | nil => exact absurd rfl hne
  | cons q qs =>
    rcases foldlMax_mem Pt.x qs q.x with h | ⟨x, hx, hfx⟩
    · exact ⟨q, List.mem_cons_self q qs, h.symm⟩
    · exact ⟨x, List.mem_cons_of_mem q hx, hfx.symm⟩

lemma exists_minYOf {pts : List Pt} (hne : pts ≠ []) :
    ∃ p ∈ pts, p.y = minYOf pts := by
  cases pts with
  | nil => exact absurd rfl hne
  | cons q qs =>
    rcases foldlMin_mem Pt.y qs q.y with h | ⟨x, hx, hfx⟩
    · exact ⟨q, List.mem_cons_self q qs, h.symm⟩
    · exact ⟨x, List.mem_cons_of_mem q hx, hfx.symm⟩

lemma exists_maxYOf {pts : List Pt} (hne : pts ≠ []) :
    ∃ p ∈ pts, p.y = maxYOf pts := by
  cases pts with
  | nil => exact absurd rfl hne
  | cons q qs =>
    rcases foldlMax_mem Pt.y qs q.y with h | ⟨x, hx, hfx⟩
    · exact ⟨q, List.mem_cons_self q qs, h.symm⟩
    · exact ⟨x, List.mem_cons_of_mem q hx, hfx.symm⟩

/-! ## C3 — orientation fitting -/

/-- C3 counterexample: for the unit square fitted into a `100 × 50`
target (non-degenerate bounding box), the code's per-axis scaling stretches
the square to `100 × 50`, while the claimed single uniform scale
(`scaledPtsSpecUniform`, the spec's reading) would produce `50 × 50` — the
aspect ratio is not preserved and the outputs differ. -/
theorem scaledPts_counterexample :
    (1/1000 : ℚ) ≤ maxXOf [⟨0,0⟩, ⟨1,0⟩, ⟨1,1⟩, ⟨0,1⟩] -
      minXOf [⟨0,0⟩, ⟨1,0⟩, ⟨1,1⟩, ⟨0,1⟩] ∧
    (1/1000 : ℚ) ≤ maxYOf [⟨0,0⟩, ⟨1,0⟩, ⟨1,1⟩, ⟨0,1⟩] -
      minYOf [⟨0,0⟩, ⟨1,0⟩, ⟨1,1⟩, ⟨0,1⟩] ∧
    scaledPts [⟨0,0⟩, ⟨1,0⟩, ⟨1,1⟩, ⟨0,1⟩] 100 50 0 ≠
      scaledPtsSpecUniform [⟨0,0⟩, ⟨1,0⟩, ⟨1,1⟩, ⟨0,1⟩] 100 50 0 ∧
    profileToShape [⟨0,0⟩, ⟨1,0⟩, ⟨1,1⟩, ⟨0,1⟩] 100 50 4 0 ≠
      closeLoop (dedupConsec (scaledPtsSpecUniform [⟨0,0⟩, ⟨1,0⟩, ⟨1,1⟩, ⟨0,1⟩] 100 50 0)) :=
  of_decide_eq_true (by with_unfolding_all rfl)

/-- `scaledPts` with the let-bindings spelled out. -/
lemma scaledPts_eq (pts : List Pt) (width depth insetFrac : ℚ) :
    scaledPts pts width depth insetFrac =
      if rotatedChoice pts width depth insetFrac then
        pts.map fun p =>
          ⟨(p.y - (minYOf pts + maxYOf pts)/2) * (effectiveW width insetFrac / spanYOf pts),
           -((p.x - (minXOf pts + maxXOf pts)/2)) * (effectiveW depth insetFrac / spanXOf pts)⟩
      else
        pts.map fun p =>
          ⟨(p.x - (minXOf pts + maxXOf pts)/2) * (effectiveW width insetFrac / spanXOf pts),
           (p.y - (minYOf pts + maxYOf pts)/2) * (effectiveW depth insetFrac / spanYOf pts)⟩ := rfl

/-- C3 amended: the fitter evaluates the direct and 90°-swapped
orientations, each scored by the limiting (minimum) of its two per-axis
ratios, picks the better-scoring orientation, recenters the profile on its
bounding-box centre — but then applies the chosen orientation's two
*per-axis* scale factors, not a single uniform one: for every profile with
both spans at least the `1e-3` epsilon, the scaled profile exactly fills
the effective target box in both axes (every point lands within
`±effectiveW/2 × ±effectiveD/2` and all four bounds are attained), so the
aspect ratio is in general not preserved (see the counterexample). -/
theorem scaledPts_fills_target (pts : List Pt) (width depth insetFrac : ℚ)
    (hne : pts ≠ [])
    (hX : 1/1000 ≤ maxXOf pts - minXOf pts)
    (hY : 1/1000 ≤ maxYOf pts - minYOf pts) :
    (∀ p ∈ scaledPts pts width depth insetFrac,
        |p.x| ≤ effectiveW width insetFrac / 2 ∧
        |p.y| ≤ effectiveW depth insetFrac / 2) ∧
    (∃ p ∈ scaledPts pts width depth insetFrac,
        p.x = -(effectiveW width insetFrac / 2)) ∧
    (∃ p ∈ scaledPts pts width depth insetFrac,
        p.x = effectiveW width insetFrac / 2) ∧
    (∃ p ∈ scaledPts pts width depth insetFrac,
        p.y = -(effectiveW depth insetFrac / 2)) ∧
    (∃ p ∈ scaledPts pts width depth insetFrac,
        p.y = effectiveW depth insetFrac / 2) := by
  have hspanX : spanXOf pts = maxXOf pts - minXOf pts := max_eq_right hX
  have hspanY : spanYOf pts = maxYOf pts - minYOf pts := max_eq_right hY
  have hposX : 0 < spanXOf pts := lt_of_lt_of_le (by norm_num) (le_max_left _ _)
  have hposY : 0 < spanYOf pts := lt_of_lt_of_le (by norm_num) (le_max_left _ _)
  have heffW : 0 < effectiveW width insetFrac :=
    lt_of_lt_of_le (by norm_num) (le_max_left _ _)
  have heffD : 0 < effectiveW depth insetFrac :=
    lt_of_lt_of_le (by norm_num) (le_max_left _ _)
  have hX0 : maxXOf pts - minXOf pts ≠ 0 := by intro h; rw [h] at hX; norm_num at hX
  have hY0 : maxYOf pts - minYOf pts ≠ 0 := by intro h; rw [h] at hY; norm_num at hY
  have habsX : ∀ q ∈ pts, |q.x - (minXOf pts + maxXOf pts)/2| ≤ spanXOf pts / 2 := by
    intro q hq
    rw [hspanX]
    exact abs_le.mpr ⟨by have := minXOf_le hq; linarith, by have := le_maxXOf hq; linarith⟩
  have habsY : ∀ q ∈ pts, |q.y - (minYOf pts + maxYOf pts)/2| ≤ spanYOf pts / 2 := by
    intro q hq
    rw [hspanY]
    exact abs_le.mpr ⟨by have := minYOf_le hq; linarith, by have := le_maxYOf hq; linarith⟩
  have hmulWX : spanXOf pts / 2 * (effectiveW width insetFrac / spanXOf pts) =
      effectiveW width insetFrac / 2 := by
    rw [hspanX]; field_simp; ring
  have hmulDY : spanYOf pts / 2 * (effectiveW depth insetFrac / spanYOf pts) =
      effectiveW depth insetFrac / 2 := by
    rw [hspanY]; field_simp; ring
  have hmulWY : spanYOf pts / 2 * (effectiveW width insetFrac / spanYOf pts) =
      effectiveW width insetFrac / 2 := by
    rw [hspanY]; field_simp; ring
  have hmulDX : spanXOf pts / 2 * (effectiveW depth insetFrac / spanXOf pts) =
      effectiveW depth insetFrac / 2 := by
    rw [hspanX]; field_simp; ring
  rw [scaledPts_eq]
  by_cases hrot : rotatedChoice pts width depth insetFrac
  · simp only [if_pos hrot]
    refine ⟨?_, ?_, ?_, ?_, ?_⟩
    · intro p hp
      obtain ⟨q, hq, rfl⟩ := List.mem_map.mp hp
      dsimp only
      constructor
      · rw [abs_mul, abs_of_pos (div_pos heffW hposY)]
        exact le_of_le_of_eq
          (mul_le_mul_of_nonneg_right (habsY q hq) (le_of_lt (div_pos heffW hposY))) hmulWY
      · rw [abs_mul, abs_neg, abs_of_pos (div_pos heffD hposX)]
        exact le_of_le_of_eq
          (mul_le_mul_of_nonneg_right (habsX q hq) (le_of_lt (div_pos heffD hposX))) hmulDX
    · obtain ⟨q, hq, hqy⟩ := exists_minYOf hne
      refine ⟨_, List.mem_map_of_mem _ hq, ?_⟩
      show (q.y - (minYOf pts + maxYOf pts)/2) * (effectiveW width insetFrac / spanYOf pts) =
        -(effectiveW width insetFrac / 2)
      rw [hqy, hspanY]
      field_simp
      ring
    · obtain ⟨q, hq, hqy⟩ := exists_maxYOf hne
      refine ⟨_, List.mem_map_of_mem _ hq, ?_⟩
      show (q.y - (minYOf pts + maxYOf pts)/2) * (effectiveW width insetFrac / spanYOf pts) =
        effectiveW width insetFrac / 2
      rw [hqy, hspanY]
      field_simp
      ring
    · obtain ⟨q, hq, hqx⟩ := exists_maxXOf hne
      refine ⟨_, List.mem_map_of_mem _ hq, ?_⟩
      show -((Pt.x q - (minXOf pts + maxXOf pts)/2)) * (effectiveW depth insetFrac / spanXOf pts) =
        -(effectiveW depth insetFrac / 2)
      rw [hqx, hspanX]
      field_simp
      ring
    · obtain ⟨q, hq, hqx⟩ := exists_minXOf hne
      refine ⟨_, List.mem_map_of_mem _ hq, ?_⟩
      show -((Pt.x q - (minXOf pts + maxXOf pts)/2)) * (effectiveW depth insetFrac / spanXOf pts) =
        effectiveW depth insetFrac / 2
      rw [hqx, hspanX]
      field_simp
      ring
  · simp only [if_neg hrot]
    refine ⟨?_, ?_, ?_, ?_, ?_⟩
    · intro p hp
      obtain ⟨q, hq, rfl⟩ := List.mem_map.mp hp
      dsimp only
      constructor
      · rw [abs_mul, abs_of_pos (div_pos heffW hposX)]
        exact le_of_le_of_eq
          (mul_le_mul_of_nonneg_right (habsX q hq) (le_of_lt (div_pos heffW hposX))) hmulWX
      · rw [abs_mul, abs_of_pos (div_pos heffD hposY)]
        exact le_of_le_of_eq
          (mul_le_mul_of_nonneg_right (habsY q hq) (le_of_lt (div_pos heffD hposY))) hmulDY
    · obtain ⟨q, hq, hqx⟩ := exists_minXOf hne
      refine ⟨_, List.mem_map_of_mem _ hq, ?_⟩
      show (q.x - (minXOf pts + maxXOf pts)/2) * (effectiveW width insetFrac / spanXOf pts) =
        -(effectiveW width insetFrac / 2)
      rw [hqx, hspanX]
      field_simp
      ring
    · obtain ⟨q, hq, hqx⟩ := exists_maxXOf hne
      refine ⟨_, List.mem_map_of_mem _ hq, ?_⟩
      show (q.x - (minXOf pts + maxXOf pts)/2) * (effectiveW width insetFrac / spanXOf pts) =
        effectiveW width insetFrac / 2
      rw [hqx, hspanX]
      field_simp
      ring
    · obtain ⟨q, hq, hqy⟩ := exists_minYOf hne
      refine ⟨_, List.mem_map_of_mem _ hq, ?_⟩
      show (q.y - (minYOf pts + maxYOf pts)/2) * (effectiveW depth insetFrac / spanYOf pts) =
        -(effectiveW depth insetFrac / 2)
      rw [hqy, hspanY]
      field_simp
      ring
    · obtain ⟨q, hq, hqy⟩ := exists_maxYOf hne
      refine ⟨_, List.mem_map_of_mem _ hq, ?_⟩
      show (q.y - (minYOf pts + maxYOf pts)/2) * (effectiveW depth insetFrac / spanYOf pts) =
        effectiveW depth insetFrac / 2
      rw [hqy, hspanY]
      field_simp
      ring

/-- Witness for C3's amended theorem on the unit square into `100 × 50`:
the stretched corner `(-50, -25)` obeys the per-axis bounds. -/
theorem scaledPts_fills_target_witness :
    |(Pt.mk (-50) (-25)).x| ≤ effectiveW 100 0 / 2 ∧
    |(Pt.mk (-50) (-25)).y| ≤ effectiveW 50 0 / 2 :=
  (scaledPts_fills_target [⟨0,0⟩, ⟨1,0⟩, ⟨1,1⟩, ⟨0,1⟩] 100 50 0
      (by simp)
      (of_decide_eq_true (by with_unfolding_all rfl))
      (of_decide_eq_true (by with_unfolding_all rfl))).1
    ⟨-50, -25⟩ (of_decide_eq_true (by with_unfolding_all rfl))

/-! ## C4 — degenerate profiles and the fallback -/

/-- C4 counterexample: the open triangle has only 3 unique points (fewer
than 4), yet `profileToShape` does not engage the fallback — closing the
loop brings the list to exactly 4 entries, so the scaled triangle itself
is returned (4 vertices), not the fractal outline. -/
-- (C4 counterexample moved below its helper lemmas)

lemma srcPts_of_ne_nil {pts : List Pt} (hne : pts ≠ []) : srcPts pts = pts := by
  cases pts with
  | nil => exact absurd rfl hne
  | cons q qs => rfl

lemma profileToShape_eq (profilePoints : List Pt) (w d : ℚ) (steps : ℕ) (inset : ℚ) :
    profileToShape profilePoints w d steps inset =
      if (closeLoop (dedupConsec (scaledPts (srcPts profilePoints) w d inset))).length < 4
      then fractalOutline w d steps (82/100)
      else closeLoop (dedupConsec (scaledPts (srcPts profilePoints) w d inset)) := rfl

lemma scaleFun_injective (cx cy sx sy : ℚ) (hx : sx ≠ 0) (hy : sy ≠ 0) :
    Function.Injective (fun p : Pt => Pt.mk ((p.x - cx) * sx) ((p.y - cy) * sy)) := by
  intro p q h
  simp only [Pt.mk.injEq] at h
  obtain ⟨h1, h2⟩ := h
  have hx1 : p.x = q.x := by
    have := mul_right_cancel₀ hx h1
    linarith
  have hy1 : p.y = q.y := by
    have := mul_right_cancel₀ hy h2
    linarith
  cases p
  cases q
  simp_all

lemma rotFun_injective (cx cy sx sy : ℚ) (hx : sx ≠ 0) (hy : sy ≠ 0) :
    Function.Injective (fun p : Pt => Pt.mk ((p.y - cy) * sx) (-((p.x - cx)) * sy)) := by
  intro p q h
  simp only [Pt.mk.injEq] at h
  obtain ⟨h1, h2⟩ := h
  have hx1 : p.x = q.x := by
    have := mul_right_cancel₀ hy h2
    linarith
  have hy1 : p.y = q.y := by
    have := mul_right_cancel₀ hx h1
    linarith
  cases p
  cases q
  simp_all

lemma dedupGo_map (f : Pt → Pt) (hf : Function.Injective f) :
    ∀ (l : List Pt) (prev : Pt),
      dedupConsec.dedupGo (f prev) (l.map f) = (dedupConsec.dedupGo prev l).map f := by
  intro l
  induction l with
  | nil => intro prev; rfl
  | cons q qs ih =>
    intro prev
    simp only [List.map_cons, dedupConsec.dedupGo]
    by_cases h : q = prev
    · rw [if_pos (congrArg f h), if_pos h]
      exact ih prev
    · rw [if_neg (fun hc => h (hf hc)), if_neg h]
      simp only [List.map_cons]
      rw [ih q]

lemma dedupConsec_map (f : Pt → Pt) (hf : Function.Injective f) (l : List Pt) :
    dedupConsec (l.map f) = (dedupConsec l).map f := by
  cases l with
  | nil => rfl
  | cons q qs =>
    simp only [List.map_cons, dedupConsec]
    rw [dedupGo_map f hf]
    try rfl

lemma closeLoop_length_le (l : List Pt) : (closeLoop l).length ≤ l.length + 1 := by
  cases l with
  | nil => simp [closeLoop]
  | cons q qs =>
    show (if (q :: qs).getLast? = some q then q :: qs else (q :: qs) ++ [q]).length ≤ _
    split
    · simp
    · simp

lemma length_le_closeLoop (l : List Pt) : l.length ≤ (closeLoop l).length := by
  cases l with
  | nil => simp [closeLoop]
  | cons q qs =>
    show _ ≤ (if (q :: qs).getLast? = some q then q :: qs else (q :: qs) ++ [q]).length
    split
    · simp
    · simp

lemma mem_closeLoop {a : Pt} {l : List Pt} (h : a ∈ l) : a ∈ closeLoop l := by
  cases l with
  | nil => cases h
  | cons q qs =>
    show a ∈ (if (q :: qs).getLast? = some q then q :: qs else (q :: qs) ++ [q])
    split
    · exact h
    · exact List.mem_append_left _ h

lemma mem_dedupGo (a : Pt) :
    ∀ (l : List Pt) (prev : Pt), a ∈ l → a = prev ∨ a ∈ dedupConsec.dedupGo prev l := by
  intro l
  induction l with
  | nil => intro prev h; cases h
  | cons q qs ih =>
    intro prev h
    simp only [dedupConsec.dedupGo]
    rcases List.mem_cons.mp h with heq | hmem
    · by_cases hqp : q = prev
      · rw [if_pos hqp]
        exact Or.inl (heq.trans hqp)
      · rw [if_neg hqp]
        exact Or.inr (by rw [heq]; exact List.mem_cons_self q _)
    · by_cases hqp : q = prev
      · rw [if_pos hqp]
        exact ih prev hmem
      · rw [if_neg hqp]
        rcases ih q hmem with h1 | h2
        · exact Or.inr (by rw [h1]; exact List.mem_cons_self q _)
        · exact Or.inr (List.mem_cons_of_mem q h2)

lemma mem_dedupConsec {a : Pt} {l : List Pt} (h : a ∈ l) : a ∈ dedupConsec l := by
  cases l with
  | nil => cases h
  | cons q qs =>
    show a ∈ q :: dedupConsec.dedupGo q qs
    rcases List.mem_cons.mp h with heq | hmem
    · rw [heq]; exact List.mem_cons_self q _
    · rcases mem_dedupGo a qs q hmem with heq | hmem2
      · rw [heq]; exact List.mem_cons_self q _
      · exact List.mem_cons_of_mem q hmem2

/-- `fractalPts` at the call sites' `levels = 4`, written out. -/
lemma fractalPts_four (w d s : ℚ) :
    fractalPts w d 4 s =
    [⟨w / 2 * jsPow s 0, -(d / 2 * jsPow s 0)⟩,
     ⟨w / 2 * jsPow s 0, -(d / 2 * jsPow s 1)⟩,
     ⟨-(w / 2 * jsPow s 1), -(d / 2 * jsPow s 1)⟩,
     ⟨w / 2 * jsPow s 1, -(d / 2 * jsPow s 2)⟩,
     ⟨-(w / 2 * jsPow s 2), -(d / 2 * jsPow s 2)⟩,
     ⟨w / 2 * jsPow s 2, -(d / 2 * jsPow s 3)⟩,
     ⟨-(w / 2 * jsPow s 3), -(d / 2 * jsPow s 3)⟩,
     ⟨-(w / 2 * jsPow s 3), -(d / 2 * jsPow s 3)⟩,
     ⟨-(w / 2 * jsPow s 3), d / 2 * jsPow s 2⟩,
     ⟨-(w / 2 * jsPow s 2), d / 2 * jsPow s 2⟩,
     ⟨-(w / 2 * jsPow s 2), d / 2 * jsPow s 1⟩,
     ⟨-(w / 2 * jsPow s 1), d / 2 * jsPow s 1⟩,
     ⟨-(w / 2 * jsPow s 1), d / 2 * jsPow s 0⟩,
     ⟨-(w / 2 * jsPow s 0), d / 2 * jsPow s 0⟩,
     ⟨-(w / 2 * jsPow s 0), d / 2 * jsPow s 0⟩,
     ⟨w / 2 * jsPow s 1, d / 2 * jsPow s 0⟩,
     ⟨w / 2 * jsPow s 1, d / 2 * jsPow s 1⟩,
     ⟨w / 2 * jsPow s 2, d / 2 * jsPow s 1⟩,
     ⟨w / 2 * jsPow s 2, d / 2 * jsPow s 2⟩,
     ⟨w / 2 * jsPow s 3, d / 2 * jsPow s 2⟩,
     ⟨w / 2 * jsPow s 3, d / 2 * jsPow s 3⟩,
     ⟨w / 2 * jsPow s 3, d / 2 * jsPow s 3⟩,
     ⟨w / 2 * jsPow s 3, -(d / 2 * jsPow s 2)⟩,
     ⟨w / 2 * jsPow s 2, -(d / 2 * jsPow s 2)⟩,
     ⟨w / 2 * jsPow s 2, -(d / 2 * jsPow s 1)⟩,
     ⟨w / 2 * jsPow s 1, -(d / 2 * jsPow s 1)⟩,
     ⟨w / 2 * jsPow s 1, -(d / 2 * jsPow s 0)⟩,
     ⟨w / 2 * jsPow s 0, -(d / 2 * jsPow s 0)⟩] := rfl

/-- Five pairwise-distinct vertices survive in the level-4 fallback
outline, so it always has at least 5 (in particular at least 4)
vertices for positive targets. -/
lemma fractalOutline_length_ge (w d : ℚ) (hw : 0 < w) (hd : 0 < d) :
    5 ≤ (fractalOutline w d 4 (82/100)).length := by
  have hmemA : Pt.mk (w / 2 * jsPow (82/100) 0) (-(d / 2 * jsPow (82/100) 0)) ∈
      fractalPts w d 4 (82/100) := by
    rw [fractalPts_four]; exact List.get_mem _ 0 (by norm_num)
  have hmemE : Pt.mk (w / 2 * jsPow (82/100) 0) (-(d / 2 * jsPow (82/100) 1)) ∈
      fractalPts w d 4 (82/100) := by
    rw [fractalPts_four]; exact List.get_mem _ 1 (by norm_num)
  have hmemB : Pt.mk (-(w / 2 * jsPow (82/100) 3)) (-(d / 2 * jsPow (82/100) 3)) ∈
      fractalPts w d 4 (82/100) := by
    rw [fractalPts_four]; exact List.get_mem _ 7 (by norm_num)
  have hmemC : Pt.mk (-(w / 2 * jsPow (82/100) 0)) (d / 2 * jsPow (82/100) 0) ∈
      fractalPts w d 4 (82/100) := by
    rw [fractalPts_four]; exact List.get_mem _ 14 (by norm_num)
  have hmemD : Pt.mk (w / 2 * jsPow (82/100) 3) (d / 2 * jsPow (82/100) 3) ∈
      fractalPts w d 4 (82/100) := by
    rw [fractalPts_four]; exact List.get_mem _ 21 (by norm_num)
  have hx0 : w / 2 * jsPow (82/100) 0 = w / 2 := by norm_num [jsPow]
  have hx3 : w / 2 * jsPow (82/100) 3 = w / 2 * (551368/1000000) := by
    norm_num [jsPow]
    try ring
  have hz0 : d / 2 * jsPow (82/100) 0 = d / 2 := by norm_num [jsPow]
  have hz1 : d / 2 * jsPow (82/100) 1 = d / 2 * (82/100) := by norm_num [jsPow]
  have hz3 : d / 2 * jsPow (82/100) 3 = d / 2 * (551368/1000000) := by
    norm_num [jsPow]
    try ring
  have hAE : Pt.mk (w / 2 * jsPow (82/100) 0) (-(d / 2 * jsPow (82/100) 0)) ≠
      Pt.mk (w / 2 * jsPow (82/100) 0) (-(d / 2 * jsPow (82/100) 1)) := by
    intro h
    simp only [Pt.mk.injEq] at h
    rw [hz0, hz1] at h
    have := h.2
    nlinarith
  have hAB : Pt.mk (w / 2 * jsPow (82/100) 0) (-(d / 2 * jsPow (82/100) 0)) ≠
      Pt.mk (-(w / 2 * jsPow (82/100) 3)) (-(d / 2 * jsPow (82/100) 3)) := by
    intro h
    simp only [Pt.mk.injEq] at h
    rw [hx0, hx3] at h
    have := h.1
    nlinarith
  have hAC : Pt.mk (w / 2 * jsPow (82/100) 0) (-(d / 2 * jsPow (82/100) 0)) ≠
      Pt.mk (-(w / 2 * jsPow (82/100) 0)) (d / 2 * jsPow (82/100) 0) := by
    intro h
    simp only [Pt.mk.injEq] at h
    rw [hx0] at h
    have := h.1
    nlinarith
  have hAD : Pt.mk (w / 2 * jsPow (82/100) 0) (-(d / 2 * jsPow (82/100) 0)) ≠
      Pt.mk (w / 2 * jsPow (82/100) 3) (d / 2 * jsPow (82/100) 3) := by
    intro h
    simp only [Pt.mk.injEq] at h
    rw [hz0, hz3] at h
    have := h.2
    nlinarith
  have hEB : Pt.mk (w / 2 * jsPow (82/100) 0) (-(d / 2 * jsPow (82/100) 1)) ≠
      Pt.mk (-(w / 2 * jsPow (82/100) 3)) (-(d / 2 * jsPow (82/100) 3)) := by
    intro h
    simp only [Pt.mk.injEq] at h
    rw [hx0, hx3] at h
    have := h.1
    nlinarith
  have hEC : Pt.mk (w / 2 * jsPow (82/100) 0) (-(d / 2 * jsPow (82/100) 1)) ≠
      Pt.mk (-(w / 2 * jsPow (82/100) 0)) (d / 2 * jsPow (82/100) 0) := by
    intro h
    simp only [Pt.mk.injEq] at h
    rw [hx0] at h
    have := h.1
    nlinarith
  have hED : Pt.mk (w / 2 * jsPow (82/100) 0) (-(d / 2 * jsPow (82/100) 1)) ≠
      Pt.mk (w / 2 * jsPow (82/100) 3) (d / 2 * jsPow (82/100) 3) := by
    intro h
    simp only [Pt.mk.injEq] at h
    rw [hz1, hz3] at h
    have := h.2
    nlinarith
  have hBC : Pt.mk (-(w / 2 * jsPow (82/100) 3)) (-(d / 2 * jsPow (82/100) 3)) ≠
      Pt.mk (-(w / 2 * jsPow (82/100) 0)) (d / 2 * jsPow (82/100) 0) := by
    intro h
    simp only [Pt.mk.injEq] at h
    rw [hz0, hz3] at h
    have := h.2
    nlinarith
  have hBD : Pt.mk (-(w / 2 * jsPow (82/100) 3)) (-(d / 2 * jsPow (82/100) 3)) ≠
      Pt.mk (w / 2 * jsPow (82/100) 3) (d / 2 * jsPow (82/100) 3) := by
    intro h
    simp only [Pt.mk.injEq] at h
    rw [hx3] at h
    have := h.1
    nlinarith
  have hCD : Pt.mk (-(w / 2 * jsPow (82/100) 0)) (d / 2 * jsPow (82/100) 0) ≠
      Pt.mk (w / 2 * jsPow (82/100) 3) (d / 2 * jsPow (82/100) 3) := by
    intro h
    simp only [Pt.mk.injEq] at h
    rw [hx0, hx3] at h
    have := h.1
    nlinarith
  have hnodup : List.Nodup
      [Pt.mk (w / 2 * jsPow (82/100) 0) (-(d / 2 * jsPow (82/100) 0)),
       Pt.mk (w / 2 * jsPow (82/100) 0) (-(d / 2 * jsPow (82/100) 1)),
       Pt.mk (-(w / 2 * jsPow (82/100) 3)) (-(d / 2 * jsPow (82/100) 3)),
       Pt.mk (-(w / 2 * jsPow (82/100) 0)) (d / 2 * jsPow (82/100) 0),
       Pt.mk (w / 2 * jsPow (82/100) 3) (d / 2 * jsPow (82/100) 3)] := by
    simp only [List.nodup_cons, List.mem_cons, List.mem_singleton, List.not_mem_nil,
      List.nodup_nil, and_true, not_or, not_false_iff]
    refine ⟨⟨hAE, hAB, hAC, hAD⟩, ⟨hEB, hEC, hED⟩, ⟨hBC, hBD⟩, hCD⟩
  have hsub : [Pt.mk (w / 2 * jsPow (82/100) 0) (-(d / 2 * jsPow (82/100) 0)),
       Pt.mk (w / 2 * jsPow (82/100) 0) (-(d / 2 * jsPow (82/100) 1)),
       Pt.mk (-(w / 2 * jsPow (82/100) 3)) (-(d / 2 * jsPow (82/100) 3)),
       Pt.mk (-(w / 2 * jsPow (82/100) 0)) (d / 2 * jsPow (82/100) 0),
       Pt.mk (w / 2 * jsPow (82/100) 3) (d / 2 * jsPow (82/100) 3)] ⊆
      fractalOutline w d 4 (82/100) := by
    intro x hx
    rcases List.mem_cons.mp hx with h | hx
    · rw [h]; exact mem_closeLoop (mem_dedupConsec hmemA)
    rcases List.mem_cons.mp hx with h | hx
    · rw [h]; exact mem_closeLoop (mem_dedupConsec hmemE)
    rcases List.mem_cons.mp hx with h | hx
    · rw [h]; exact mem_closeLoop (mem_dedupConsec hmemB)
    rcases List.mem_cons.mp hx with h | hx
    · rw [h]; exact mem_closeLoop (mem_dedupConsec hmemC)
    rcases List.mem_cons.mp hx with h | hx
    · rw [h]; exact mem_closeLoop (mem_dedupConsec hmemD)
    cases hx
  exact (List.subperm_of_subset hnodup hsub).length_le

/-- C4 amended: the fallback is engaged exactly when fewer than 4 points
remain after scaling, consecutive de-duplication and loop closing — a
bounding-box span below epsilon is clamped to `1e-3` and never triggers
the fallback by itself.  Every profile with at most 2 unique consecutive
points yields the fallback (scaling is always injective, so the count is
preserved and closing adds at most one); a 3-unique-point open profile
escapes it (see the counterexample).  For the `fallbackComplexity = 4`
used at every call site and positive targets, the returned polygon —
fallback or not — always has at least 4 vertices, and no error is ever
raised (the function is total). -/
theorem profileToShape_fallback_spec :
    (∀ (pts : List Pt) (w d : ℚ) (steps : ℕ) (inset : ℚ), pts ≠ [] →
      (dedupConsec pts).length ≤ 2 →
      profileToShape pts w d steps inset = fractalOutline w d steps (82/100)) ∧
    (∀ (pts : List Pt) (w d inset : ℚ), 0 < w → 0 < d →
      4 ≤ (profileToShape pts w d 4 inset).length) := by
  constructor
  · intro pts w d steps inset hne hlen
    rw [profileToShape_eq, srcPts_of_ne_nil hne]
    have hsX : spanXOf pts ≠ 0 :=
      ne_of_gt (lt_of_lt_of_le (by norm_num) (le_max_left _ _))
    have hsY : spanYOf pts ≠ 0 :=
      ne_of_gt (lt_of_lt_of_le (by norm_num) (le_max_left _ _))
    have heW : effectiveW w inset ≠ 0 :=
      ne_of_gt (lt_of_lt_of_le (by norm_num) (le_max_left _ _))
    have heD : effectiveW d inset ≠ 0 :=
      ne_of_gt (lt_of_lt_of_le (by norm_num) (le_max_left _ _))
    have hmap : ∃ f : Pt → Pt, Function.Injective f ∧
        scaledPts pts w d inset = pts.map f := by
      rw [scaledPts_eq]
      by_cases hrot : rotatedChoice pts w d inset
      · rw [if_pos hrot]
        exact ⟨_, rotFun_injective _ _ _ _ (div_ne_zero heW hsY) (div_ne_zero heD hsX), rfl⟩
      · rw [if_neg hrot]
        exact ⟨_, scaleFun_injective _ _ _ _ (div_ne_zero heW hsX) (div_ne_zero heD hsY), rfl⟩
    obtain ⟨f, hf, hfeq⟩ := hmap
    rw [hfeq, dedupConsec_map f hf, if_pos]
    exact lt_of_le_of_lt (closeLoop_length_le _) (by rw [List.length_map]; omega)
  · intro pts w d inset hw hd
    rw [profileToShape_eq]
    by_cases hc :
        (closeLoop (dedupConsec (scaledPts (srcPts pts) w d inset))).length < 4
    · rw [if_pos hc]
      exact le_trans (by norm_num) (fractalOutline_length_ge w d hw hd)
    · rw [if_neg hc]
      omega

/-- C4 counterexample: the open triangle has only 3 unique points (fewer
than 4), yet `profileToShape` does not engage the fallback: closing the
scaled triangle brings it to exactly 4 entries, which is returned itself —
it cannot be the fallback outline, which always has at least 5 vertices. -/
theorem profileToShape_counterexample :
    (dedupConsec [⟨0,0⟩, ⟨30,0⟩, ⟨0,30⟩]).length = 3 ∧
    profileToShape [⟨0,0⟩, ⟨30,0⟩, ⟨0,30⟩] 100 80 4 0 ≠ fractalOutline 100 80 4 (82/100) ∧
    (profileToShape [⟨0,0⟩, ⟨30,0⟩, ⟨0,30⟩] 100 80 4 0).length = 4 := by
  have h4 : (profileToShape [⟨0,0⟩, ⟨30,0⟩, ⟨0,30⟩] 100 80 4 0).length = 4 := by
    with_unfolding_all rfl
  refine ⟨by with_unfolding_all rfl, ?_, h4⟩
  intro h
  have h5 : 5 ≤ (fractalOutline 100 80 4 (82/100)).length :=
    fractalOutline_length_ge 100 80 (by norm_num) (by norm_num)
  rw [h] at h4
  omega

/-- Witness for C4's amended theorem: a 2-point profile falls back, and
the output on it has at least 4 vertices. -/
theorem profileToShape_fallback_spec_witness :
    profileToShape [⟨0,0⟩, ⟨5,5⟩] 100 80 4 0 = fractalOutline 100 80 4 (82/100) ∧
    4 ≤ (profileToShape [⟨0,0⟩, ⟨5,5⟩] 100 80 4 0).length :=
  ⟨profileToShape_fallback_spec.1 [⟨0,0⟩, ⟨5,5⟩] 100 80 4 0 (by simp)
      (of_decide_eq_true (by with_unfolding_all rfl)),
   profileToShape_fallback_spec.2 [⟨0,0⟩, ⟨5,5⟩] 100 80 0 (by norm_num) (by norm_num)⟩

/-! ## C9 — ornament gating by detail level -/

lemma mem_towerLayers {st : TowerState} {detail : Detail} {bv : Bool} {L : Layer}
    (h : L ∈ towerLayers st detail bv) :
    ∃ i j, i < realizedTiers st ∧ j < (subStepsFor detail i).toNat ∧
      L = { tier := i, sub := j
            pilasters := if detail ≠ .low then some (max 3 (st.columnCount - 1)) else none
            niches := detail ≠ .low
            stripes := detail ≠ .low
            statues := if detail = .high then some (max 3 (st.columnCount - 2)) else none
            miniShrines :=
              !(decide ((i : ℚ) = min (tierTotal st) st.visibleTiers - 1)) && detail ≠ .low
            columns := if detail ≠ .low then some st.columnCount else none
            cornice := true
            bead := detail = .high && st.beadEnabled ≠ 0 && bv } := by
  unfold towerLayers at h
  obtain ⟨i, hi, hL⟩ := List.mem_flatMap.mp h
  obtain ⟨j, hj, rfl⟩ := List.mem_map.mp hL
  exact ⟨i, j, List.mem_range.mp hi, List.mem_range.mp hj, rfl⟩

/-- C9: ornament classes are gated by detail level exactly as the code
does it — at Low every realized tier contributes exactly one sub-step
layer (`sub = 0`, one layer per tier) carrying no pilasters, niches,
stripes, mini-shrines, statue rows or beads, and no columns at all (the
column count is reduced to zero); at Medium columns (full count), cornices
and pilasters are present and statue rows and beads are absent; statue
rows occur only at High; the bead row occurs only at High with the bead
flag truthy and the distance gate (`beadVisible`) allowing it; and a tower
at distance 3000 with `lodNear = 1250`, `lodFar = 2500` classifies Low, so
its tree has no statue rows and no mini-shrines. -/
theorem towerLayers_detail_gating (st : TowerState) (bv : Bool) :
    (∀ L ∈ towerLayers st .low bv,
      L.sub = 0 ∧ L.pilasters = none ∧ L.niches = false ∧ L.stripes = false ∧
      L.miniShrines = false ∧ L.statues = none ∧ L.columns = none ∧
      L.bead = false ∧ L.cornice = true) ∧
    (towerLayers st .low bv).length = realizedTiers st ∧
    (∀ L ∈ towerLayers st .medium bv,
      L.columns = some st.columnCount ∧ L.cornice = true ∧
      L.pilasters = some (max 3 (st.columnCount - 1)) ∧
      L.niches = true ∧ L.stripes = true ∧ L.statues = none ∧ L.bead = false) ∧
    (∀ (detail : Detail) (L : Layer), L ∈ towerLayers st detail bv →
      L.statues ≠ none → detail = .high) ∧
    (∀ (detail : Detail) (L : Layer), L ∈ towerLayers st detail bv →
      L.bead = true → detail = .high ∧ st.beadEnabled ≠ 0 ∧ bv = true) ∧
    detailForDist 3000 1250 2500 = Detail.low := by
  refine ⟨?_, ?_, ?_, ?_, ?_, ?_⟩
  · intro L h
    obtain ⟨i, j, hi, hj, rfl⟩ := mem_towerLayers h
    have hj0 : j = 0 := by
      have : (subStepsFor Detail.low i).toNat = 1 := rfl
      omega
    subst hj0
    simp
  · unfold towerLayers
    rw [List.length_flatMap]
    simp only [subStepsFor, Int.toNat_one]
    simp [Function.comp_def, List.map_const', List.sum_replicate]
  · intro L h
    obtain ⟨i, j, hi, hj, rfl⟩ := mem_towerLayers h
    simp
  · intro detail L h hst
    obtain ⟨i, j, hi, hj, rfl⟩ := mem_towerLayers h
    by_cases hd : detail = .high
    · exact hd
    · simp only [if_neg hd] at hst
      exact absurd rfl hst
  · intro detail L h hb
    obtain ⟨i, j, hi, hj, rfl⟩ := mem_towerLayers h
    simp only [Bool.and_eq_true, decide_eq_true_eq] at hb
    exact ⟨hb.1.1, hb.1.2, hb.2⟩
  · show (if (3000 : ℚ) < min 1250 (2500 - 50) then Detail.high
      else if (3000 : ℚ) < max 2500 (min 1250 (2500 - 50) + 50) then Detail.medium
      else Detail.low) = Detail.low
    rw [if_neg (by norm_num), if_neg (by norm_num)]

/-- Witness for C9 at the default state: the first Low-detail layer is
bare, and the scenario distance classifies Low. -/
theorem towerLayers_detail_gating_witness :
    ((Layer.mk 0 0 none false false none false none true false).sub = 0 ∧
     (Layer.mk 0 0 none false false none false none true false).pilasters = none ∧
     (Layer.mk 0 0 none false false none false none true false).niches = false ∧
     (Layer.mk 0 0 none false false none false none true false).stripes = false ∧
     (Layer.mk 0 0 none false false none false none true false).miniShrines = false ∧
     (Layer.mk 0 0 none false false none false none true false).statues = none ∧
     (Layer.mk 0 0 none false false none false none true false).columns = none ∧
     (Layer.mk 0 0 none false false none false none true false).bead = false ∧
     (Layer.mk 0 0 none false false none false none true false).cornice = true) ∧
    detailForDist 3000 1250 2500 = Detail.low :=
  ⟨(towerLayers_detail_gating defaultState true).1
      (Layer.mk 0 0 none false false none false none true false)
      (of_decide_eq_true (by with_unfolding_all rfl)),
   (towerLayers_detail_gating defaultState true).2.2.2.2.2⟩

/-! ## C7 — profile text codec -/

lemma charToDigit_digitToChar {d : ℕ} (h : d < 10) :
    charToDigit (digitToChar d) = some d := by
  interval_cases d <;> decide

lemma digitToChar_props {d : ℕ} (h : d < 10) :
    digitToChar d ≠ '.' ∧ digitToChar d ≠ '-' ∧
    tokenSep (digitToChar d) = false ∧ lineSep (digitToChar d) = false ∧
    wsChar (digitToChar d) = false := by
  interval_cases d <;> exact ⟨by decide, by decide, by decide, by decide, by decide⟩

lemma digitsOfChars_map_digitToChar {ds : List ℕ} (h : ∀ d ∈ ds, d < 10) :
    digitsOfChars (ds.map digitToChar) = some ds := by
  induction ds with
  | nil => rfl
  | cons d rest ih =>
    simp only [List.map_cons, digitsOfChars]
    rw [charToDigit_digitToChar (h d (List.mem_cons_self d rest)),
      ih (fun x hx => h x (List.mem_cons_of_mem d hx))]

lemma digitsOfChars_append {l1 l2 : List Char} {d1 d2 : List ℕ}
    (h1 : digitsOfChars l1 = some d1) (h2 : digitsOfChars l2 = some d2) :
    digitsOfChars (l1 ++ l2) = some (d1 ++ d2) := by
  induction l1 generalizing d1 with
  | nil =>
    simp only [digitsOfChars] at h1
    cases h1
    simpa using h2
  | cons c cs ih =>
    simp only [digitsOfChars] at h1 ⊢
    cases hc : charToDigit c with
    | none => rw [hc] at h1; cases h1
    | some d =>
      rw [hc] at h1
      cases hcs : digitsOfChars cs with
      | none => rw [hcs] at h1; cases h1
      | some ds =>
        rw [hcs] at h1
        cases h1
        rw [List.append_eq, ih hcs]
        rfl

lemma ofDigits_replicate_zero (k : ℕ) : Nat.ofDigits 10 (List.replicate k 0) = 0 := by
  induction k with
  | zero => rfl
  | succ n ih => simp [List.replicate_succ, Nat.ofDigits_cons, ih]

lemma natToChars_ne_nil (n : ℕ) : natToChars n ≠ [] := by
  unfold natToChars
  split
  · simp
  · simp only [ne_eq, List.map_eq_nil_iff, List.reverse_eq_nil_iff]
    exact Nat.digits_ne_nil_iff_ne_zero.mpr (by assumption)

lemma natToChars_mem {n : ℕ} {c : Char} (hc : c ∈ natToChars n) :
    ∃ d, d < 10 ∧ c = digitToChar d := by
  unfold natToChars at hc
  split at hc
  · exact ⟨0, by norm_num, by simpa using hc⟩
  · obtain ⟨d, hd, rfl⟩ := List.mem_map.mp hc
    exact ⟨d, Nat.digits_lt_base (by norm_num) (List.mem_reverse.mp hd), rfl⟩

lemma charsToNat_natToChars (n : ℕ) : charsToNat (natToChars n) = some n := by
  by_cases h0 : n = 0
  · subst h0; rfl
  · unfold charsToNat natToChars
    rw [if_neg h0]
    have hne : (Nat.digits 10 n).reverse.map digitToChar ≠ [] := by
      simp only [ne_eq, List.map_eq_nil_iff, List.reverse_eq_nil_iff]
      exact Nat.digits_ne_nil_iff_ne_zero.mpr h0
    rw [if_neg (by simpa [List.isEmpty_iff] using hne)]
    rw [digitsOfChars_map_digitToChar
      (fun d hd => Nat.digits_lt_base (by norm_num) (List.mem_reverse.mp hd))]
    simp [Nat.ofDigits_digits]

lemma digitsOfChars_replicate_zero (k : ℕ) :
    digitsOfChars (List.replicate k '0') = some (List.replicate k 0) := by
  induction k with
  | zero => rfl
  | succ n ih => simp [List.replicate_succ, digitsOfChars, ih, charToDigit]

lemma charsToNat_padLeft6 (m : ℕ) :
    charsToNat (padLeft6 (natToChars m)) = some m := by
  unfold padLeft6 charsToNat
  have hne : List.replicate (6 - (natToChars m).length) '0' ++ natToChars m ≠ [] := by
    simp [natToChars_ne_nil m]
  rw [if_neg (by simpa [List.isEmpty_iff] using hne)]
  have hdigits : ∃ ds, digitsOfChars (natToChars m) = some ds ∧
      Nat.ofDigits 10 ds.reverse = m := by
    have := charsToNat_natToChars m
    unfold charsToNat at this
    rw [if_neg (by simpa [List.isEmpty_iff] using natToChars_ne_nil m)] at this
    cases hd : digitsOfChars (natToChars m) with
    | none => rw [hd] at this; cases this
    | some ds =>
      rw [hd] at this
      simp only [Option.map_some', Option.some.injEq] at this
      exact ⟨ds, rfl, this⟩
  obtain ⟨ds, hds, hval⟩ := hdigits
  rw [digitsOfChars_append (digitsOfChars_replicate_zero _) hds]
  simp only [Option.map_some', Option.some.injEq]
  rw [List.reverse_append, Nat.ofDigits_append]
  simp [ofDigits_replicate_zero, hval]

lemma natToChars_length_le {m k : ℕ} (h : m < 10 ^ k) (hk : 1 ≤ k) :
    (natToChars m).length ≤ k := by
  unfold natToChars
  split
  · simpa using hk
  · simp only [List.length_map, List.length_reverse]
    by_contra hlen
    push_neg at hlen
    have h1 : 10 ^ (Nat.digits 10 m).length ≤ 10 * m :=
      Nat.base_pow_length_digits_le 10 m (by norm_num) (by assumption)
    have h2 : 10 ^ (k + 1) ≤ 10 ^ (Nat.digits 10 m).length :=
      Nat.pow_le_pow_right (by norm_num) hlen
    have h3 : 10 * m < 10 * 10 ^ k := by omega
    rw [pow_succ] at h2
    omega

lemma padLeft6_length {cs : List Char} (h : cs.length ≤ 6) :
    (padLeft6 cs).length = 6 := by
  simp [padLeft6]
  omega

lemma toFixed6_mem {q : ℚ} {c : Char} (hc : c ∈ toFixed6 q) :
    tokenSep c = false ∧ lineSep c = false ∧ wsChar c = false := by
  unfold toFixed6 at hc
  have hbody : ∀ x ∈ natToChars (round6 |q| / 1000000) ++
      '.' :: padLeft6 (natToChars (round6 |q| % 1000000)),
      tokenSep x = false ∧ lineSep x = false ∧ wsChar x = false := by
    intro x hx
    rcases List.mem_append.mp hx with hx | hx
    · obtain ⟨d, hd, rfl⟩ := natToChars_mem hx
      exact ⟨(digitToChar_props hd).2.2.1, (digitToChar_props hd).2.2.2.1,
        (digitToChar_props hd).2.2.2.2⟩
    · rcases List.mem_cons.mp hx with rfl | hx
      · exact ⟨rfl, rfl, rfl⟩
      · unfold padLeft6 at hx
        rcases List.mem_append.mp hx with hx | hx
        · rw [List.eq_of_mem_replicate hx]
          exact ⟨rfl, rfl, rfl⟩
        · obtain ⟨d, hd, rfl⟩ := natToChars_mem hx
          exact ⟨(digitToChar_props hd).2.2.1, (digitToChar_props hd).2.2.2.1,
            (digitToChar_props hd).2.2.2.2⟩
  split at hc
  · rcases List.mem_cons.mp hc with rfl | hc
    · exact ⟨rfl, rfl, rfl⟩
    · exact hbody c hc
  · exact hbody c hc

lemma toFixed6_ne_nil (q : ℚ) : toFixed6 q ≠ [] := by
  unfold toFixed6
  split
  · simp
  · simp [natToChars_ne_nil]

lemma fmtPoint_mem {p : Pt} {c : Char} (hc : c ∈ fmtPoint p) :
    lineSep c = false ∧ wsChar c = false ∨ c = ',' ∨ c = ' ' := by
  unfold fmtPoint at hc
  rcases List.mem_append.mp hc with hx | hx
  · exact Or.inl ⟨(toFixed6_mem hx).2.1, (toFixed6_mem hx).2.2⟩
  · rcases List.mem_cons.mp hx with rfl | hx
    · exact Or.inr (Or.inl rfl)
    · rcases List.mem_cons.mp hx with rfl | hx
      · exact Or.inr (Or.inr rfl)
      · exact Or.inl ⟨(toFixed6_mem hx).2.1, (toFixed6_mem hx).2.2⟩

lemma fmtPoint_lineSep {p : Pt} {c : Char} (hc : c ∈ fmtPoint p) : lineSep c = false := by
  rcases fmtPoint_mem hc with h | rfl | rfl
  · exact h.1
  · rfl
  · rfl

lemma fmtPoint_ne_nil (p : Pt) : fmtPoint p ≠ [] := by
  unfold fmtPoint
  simp [toFixed6_ne_nil]

lemma splitOnPred_ne_nil (sep : Char → Bool) (l : List Char) :
    splitOnPred sep l ≠ [] := by
  induction l with
  | nil => simp [splitOnPred]
  | cons c cs ih =>
    simp only [splitOnPred]
    cases h : splitOnPred sep cs with
    | nil => exact absurd h ih
    | cons t ts =>
      dsimp only
      split <;> simp

lemma splitOnPred_sepFree {sep : Char → Bool} {l : List Char}
    (h : ∀ c ∈ l, sep c = false) : splitOnPred sep l = [l] := by
  induction l with
  | nil => rfl
  | cons c cs ih =>
    simp only [splitOnPred]
    rw [ih (fun x hx => h x (List.mem_cons_of_mem c hx))]
    dsimp only
    rw [if_neg (by simp [h c (List.mem_cons_self c cs)])]

lemma splitOnPred_cons_sep {sep : Char → Bool} {c : Char} (hsep : sep c = true)
    (cs : List Char) : splitOnPred sep (c :: cs) = [] :: splitOnPred sep cs := by
  simp only [splitOnPred]
  cases h : splitOnPred sep cs with
  | nil => exact absurd h (splitOnPred_ne_nil sep cs)
  | cons t ts =>
    dsimp only
    rw [if_pos (by simp [hsep])]

lemma splitOnPred_append {sep : Char → Bool} {l1 : List Char} {c : Char}
    (h1 : ∀ x ∈ l1, sep x = false) (hsep : sep c = true) (l2 : List Char) :
    splitOnPred sep (l1 ++ c :: l2) = l1 :: splitOnPred sep l2 := by
  induction l1 with
  | nil => simpa using splitOnPred_cons_sep hsep l2
  | cons a as ih =>
    simp only [List.cons_append, splitOnPred]
    simp only [List.append_eq]
    rw [ih (fun x hx => h1 x (List.mem_cons_of_mem a hx))]
    dsimp only
    rw [if_neg (by simp [h1 a (List.mem_cons_self a as)])]

lemma dropWhile_cons_of_neg {p : Char → Bool} {c : Char} {cs : List Char}
    (h : p c = false) : (c :: cs).dropWhile p = c :: cs := by
  simp [List.dropWhile_cons, h]

lemma trimChars_eq_self {l : List Char}
    (h : ∀ c ∈ l, wsChar c = false ∨ (c = ',' ∨ c = ' ') ∧ l.head? ≠ some c ∧ l.getLast? ≠ some c) :
    trimChars l = l := by
  unfold trimChars
  have hd : l.dropWhile wsChar = l := by
    cases l with
    | nil => rfl
    | cons c cs =>
      refine dropWhile_cons_of_neg ?_
      rcases h c (List.mem_cons_self c cs) with hc | ⟨_, hne, _⟩
      · exact hc
      · exact absurd rfl hne
  rw [hd]
  cases hrev : l.reverse with
  | nil =>
    rw [List.reverse_eq_nil_iff.mp hrev]
    rfl
  | cons c cs =>
    have hcl : c ∈ l := by
      have : c ∈ l.reverse := by rw [hrev]; exact List.mem_cons_self c cs
      exact List.mem_reverse.mp this
    have hlast : l.getLast? = some c := by
      rw [← List.head?_reverse, hrev]
      rfl
    have hcw : wsChar c = false := by
      rcases h c hcl with hc | ⟨_, _, hne⟩
      · exact hc
      · exact absurd hlast hne
    have hback : l = (c :: cs).reverse := by
      have := congrArg List.reverse hrev
      rwa [List.reverse_reverse] at this
    rw [dropWhile_cons_of_neg hcw]
    exact hback.symm

lemma tokenSep_comma : tokenSep ',' = true := rfl

lemma tokenSep_space : tokenSep ' ' = true := rfl

lemma trimChars_fmtPoint (p : Pt) : trimChars (fmtPoint p) = fmtPoint p := by
  apply trimChars_eq_self
  intro c hc
  rcases fmtPoint_mem hc with ⟨hl, hws⟩ | hcs
  · exact Or.inl hws
  · refine Or.inr ⟨hcs, ?_, ?_⟩
    · intro hhd
      unfold fmtPoint at hhd
      rw [List.head?_append] at hhd
      cases htf : toFixed6 p.x with
      | nil => exact absurd htf (toFixed6_ne_nil p.x)
      | cons a as =>
        rw [htf] at hhd
        simp only [List.head?_cons] at hhd
        have ha : a ∈ toFixed6 p.x := by rw [htf]; exact List.mem_cons_self a as
        have hsep := (toFixed6_mem ha).1
        have hac : a = c := by
          simpa [Option.or] using hhd
        rw [hac] at hsep
        rcases hcs with rfl | rfl
        · exact absurd hsep (by rw [tokenSep_comma]; simp)
        · exact absurd hsep (by rw [tokenSep_space]; simp)
    · intro hlast
      unfold fmtPoint at hlast
      rw [List.getLast?_append_of_ne_nil _ (by simp)] at hlast
      have h2 : (',' :: ' ' :: toFixed6 p.y).getLast? = (toFixed6 p.y).getLast? := by
        have : (',' :: ' ' :: toFixed6 p.y) = [',', ' '] ++ toFixed6 p.y := rfl
        rw [this, List.getLast?_append_of_ne_nil _ (toFixed6_ne_nil p.y)]
      rw [h2] at hlast
      have hcm : c ∈ toFixed6 p.y := List.mem_of_getLast?_eq_some hlast
      have hsep := (toFixed6_mem hcm).1
      rcases hcs with rfl | rfl
      · exact absurd hsep (by rw [tokenSep_comma]; simp)
      · exact absurd hsep (by rw [tokenSep_space]; simp)

lemma takeDrop_dot {l1 : List Char} (h1 : ∀ x ∈ l1, x ≠ '.') (l2 : List Char) :
    (l1 ++ '.' :: l2).takeWhile (fun c => c ≠ '.') = l1 ∧
    (l1 ++ '.' :: l2).dropWhile (fun c => c ≠ '.') = '.' :: l2 := by
  induction l1 with
  | nil =>
    constructor
    · simp [List.takeWhile_cons]
    · simp [List.dropWhile_cons]
  | cons a as ih =>
    obtain ⟨iht, ihd⟩ := ih (fun x hx => h1 x (List.mem_cons_of_mem a hx))
    have ha : a ≠ '.' := h1 a (List.mem_cons_self a as)
    constructor
    · simp only [List.cons_append, List.takeWhile_cons]
      rw [if_pos (by simpa using ha), iht]
    · simp only [List.cons_append, List.dropWhile_cons]
      rw [if_pos (by simpa using ha), ihd]

lemma jsUnsigned_eq (cs : List Char) :
    jsUnsigned cs =
      if (cs.dropWhile (fun c => c ≠ '.')).isEmpty then
        (charsToNat (cs.takeWhile (fun c => c ≠ '.'))).map fun n => (n : ℚ)
      else
        match charsToNat (cs.takeWhile (fun c => c ≠ '.')),
          charsToNat (cs.dropWhile (fun c => c ≠ '.')).tail with
        | some a, some b => some ((a : ℚ) + (b : ℚ) /
            jsPow 10 (cs.dropWhile (fun c => c ≠ '.')).tail.length)
        | _, _ => none := rfl

lemma jsPow_ten_six : jsPow 10 6 = 1000000 := by norm_num [jsPow]

lemma jsUnsigned_body (n : ℕ) :
    jsUnsigned (natToChars (n / 1000000) ++ '.' :: padLeft6 (natToChars (n % 1000000))) =
      some ((n : ℚ) / 1000000) := by
  have hdot : ∀ x ∈ natToChars (n / 1000000), x ≠ '.' := by
    intro x hx
    obtain ⟨d, hd, rfl⟩ := natToChars_mem hx
    exact (digitToChar_props hd).1
  obtain ⟨ht, hdp⟩ := takeDrop_dot hdot (padLeft6 (natToChars (n % 1000000)))
  rw [jsUnsigned_eq, ht, hdp]
  rw [if_neg (by simp)]
  simp only [List.tail_cons]
  rw [charsToNat_natToChars, charsToNat_padLeft6]
  have hlen : (padLeft6 (natToChars (n % 1000000))).length = 6 :=
    padLeft6_length (natToChars_length_le (Nat.mod_lt n (by norm_num)) (by norm_num))
  rw [hlen, jsPow_ten_six]
  have hmod : ((n % 1000000 : ℕ) : ℚ) < 1000000 := by
    exact_mod_cast Nat.mod_lt n (by norm_num)
  field_simp
  rw [mul_comm]
  exact_mod_cast (Nat.div_add_mod n 1000000)

lemma jsNumber_toFixed6 (q : ℚ) : jsNumber (toFixed6 q) = some (reparsed6 q) := by
  by_cases hq : q < 0
  · have htf : toFixed6 q = '-' :: (natToChars (round6 |q| / 1000000) ++
        '.' :: padLeft6 (natToChars (round6 |q| % 1000000))) := by
      unfold toFixed6
      rw [if_pos hq]
    rw [htf]
    unfold jsNumber
    rw [List.head?_cons, if_pos rfl, List.tail_cons, jsUnsigned_body]
    unfold reparsed6
    rw [if_pos hq, abs_of_neg hq]
    rfl
  · have htf : toFixed6 q = natToChars (round6 |q| / 1000000) ++
        '.' :: padLeft6 (natToChars (round6 |q| % 1000000)) := by
      unfold toFixed6
      rw [if_neg hq]
    rw [htf]
    unfold jsNumber
    cases hnc : natToChars (round6 |q| / 1000000) with
    | nil => exact absurd hnc (natToChars_ne_nil _)
    | cons a as =>
      have ha : a ∈ natToChars (round6 |q| / 1000000) := by
        rw [hnc]; exact List.mem_cons_self a as
      obtain ⟨d, hd, rfl⟩ := natToChars_mem ha
      rw [List.cons_append, List.head?_cons]
      rw [if_neg (by simpa using (digitToChar_props hd).2.1)]
      rw [← List.cons_append, ← hnc, jsUnsigned_body]
      unfold reparsed6
      rw [if_neg hq, abs_of_nonneg (not_lt.mp hq)]

lemma filter_nonempty_triple {l1 l2 : List Char} (h1 : l1 ≠ []) (h2 : l2 ≠ []) :
    List.filter (fun t => !t.isEmpty) [l1, [], l2] = [l1, l2] := by
  cases l1 with
  | nil => exact absurd rfl h1
  | cons a as =>
    cases l2 with
    | nil => exact absurd rfl h2
    | cons b bs => rfl

lemma parseLine_fmtPoint (p : Pt) :
    parseLine (fmtPoint p) = some ⟨reparsed6 p.x, reparsed6 p.y⟩ := by
  have hx : ∀ c ∈ toFixed6 p.x, tokenSep c = false := fun c hc => (toFixed6_mem hc).1
  have hy : ∀ c ∈ toFixed6 p.y, tokenSep c = false := fun c hc => (toFixed6_mem hc).1
  have hsplit : splitOnPred tokenSep (fmtPoint p) =
      [toFixed6 p.x, [], toFixed6 p.y] := by
    unfold fmtPoint
    rw [splitOnPred_append hx tokenSep_comma, splitOnPred_cons_sep tokenSep_space,
      splitOnPred_sepFree hy]
  unfold parseLine
  rw [hsplit, filter_nonempty_triple (toFixed6_ne_nil p.x) (toFixed6_ne_nil p.y)]
  dsimp only
  rw [jsNumber_toFixed6, jsNumber_toFixed6]

lemma splitOnPred_joinNL : ∀ ls : List (List Char), ls ≠ [] →
    (∀ l ∈ ls, ∀ c ∈ l, lineSep c = false) →
    splitOnPred lineSep (joinNL ls) = ls := by
  intro ls
  induction ls with
  | nil => exact fun hne _ => absurd rfl hne
  | cons l tl ih =>
    intro _ h
    cases tl with
    | nil =>
      rw [show joinNL [l] = l from rfl]
      exact splitOnPred_sepFree (h l (List.mem_cons_self l []))
    | cons l2 ls2 =>
      rw [show joinNL (l :: l2 :: ls2) = l ++ '\n' :: joinNL (l2 :: ls2) from rfl]
      rw [splitOnPred_append (fun c hc => h l (List.mem_cons_self _ _) c hc)
        (show lineSep '\n' = true from rfl)]
      rw [ih (by simp) (fun m hm c hc => h m (List.mem_cons_of_mem l hm) c hc)]

lemma filterMap_map_of_some {α β γ : Type} (f : β → Option γ) (g : α → β) (h : α → γ)
    (hfg : ∀ a, f (g a) = some (h a)) : ∀ l : List α, (l.map g).filterMap f = l.map h := by
  intro l
  induction l with
  | nil => rfl
  | cons a as ih =>
    simp only [List.map_cons, List.filterMap_cons, hfg a, ih]

lemma parseProfileText_pointsToString (P : List Pt) :
    parseProfileText (pointsToString P) =
      P.map (fun p => (⟨reparsed6 p.x, reparsed6 p.y⟩ : Pt)) := by
  cases P with
  | nil => rfl
  | cons p0 ps =>
    unfold parseProfileText pointsToString
    rw [splitOnPred_joinNL ((p0 :: ps).map fmtPoint) (by simp)
      (fun l hl c hc => by
        obtain ⟨q, hq, rfl⟩ := List.mem_map.mp hl
        exact fmtPoint_lineSep hc)]
    rw [List.map_map]
    have htrim : (p0 :: ps).map (trimChars ∘ fmtPoint) = (p0 :: ps).map fmtPoint :=
      List.map_congr_left (fun q _ => trimChars_fmtPoint q)
    rw [htrim]
    have hfilt : ((p0 :: ps).map fmtPoint).filter (fun l => !l.isEmpty) =
        (p0 :: ps).map fmtPoint := by
      refine List.filter_eq_self.mpr (fun l hl => ?_)
      obtain ⟨q, hq, rfl⟩ := List.mem_map.mp hl
      cases hfp : fmtPoint q with
      | nil => exact absurd hfp (fmtPoint_ne_nil q)
      | cons a as => rfl
    rw [hfilt]
    exact filterMap_map_of_some parseLine fmtPoint _ parseLine_fmtPoint (p0 :: ps)

lemma round6_div (n : ℕ) : round6 ((n : ℚ) / 1000000) = n := by
  unfold round6
  have harg : ((n : ℚ) / 1000000) * 1000000 + 1/2 = (n : ℚ) + 1/2 := by
    field_simp
  rw [harg]
  have h1 : ⌊(n : ℚ) + 1/2⌋ = (n : ℤ) := by
    rw [Int.floor_eq_iff]
    constructor
    · push_cast; linarith
    · push_cast; linarith
  rw [h1]
  exact Int.toNat_natCast n

lemma round6_err {x : ℚ} (hx : 0 ≤ x) :
    |((round6 x : ℕ) : ℚ) / 1000000 - x| ≤ 1/2000000 := by
  unfold round6
  have hfl : ((⌊x * 1000000 + 1/2⌋ : ℤ) : ℚ) ≤ x * 1000000 + 1/2 := Int.floor_le _
  have hfl2 : x * 1000000 + 1/2 < ((⌊x * 1000000 + 1/2⌋ : ℤ) : ℚ) + 1 :=
    Int.lt_floor_add_one _
  have hnn : 0 ≤ ⌊x * 1000000 + 1/2⌋ := by
    apply Int.floor_nonneg.mpr
    nlinarith
  have htn : (((⌊x * 1000000 + 1/2⌋).toNat : ℕ) : ℚ) =
      ((⌊x * 1000000 + 1/2⌋ : ℤ) : ℚ) := by
    exact_mod_cast Int.toNat_of_nonneg hnn
  rw [htn, abs_le]
  constructor
  · linarith
  · linarith

lemma reparsed6_err (q : ℚ) : |reparsed6 q - q| ≤ 1/2000000 := by
  unfold reparsed6
  by_cases hq : q < 0
  · rw [if_pos hq]
    have h := round6_err (x := -q) (by linarith)
    rw [show -(((round6 (-q) : ℕ) : ℚ) / 1000000) - q =
      -(((round6 (-q) : ℕ) : ℚ) / 1000000 - -q) from by ring, abs_neg]
    exact h
  · rw [if_neg hq]
    exact round6_err (not_lt.mp hq)

lemma toFixed6_reparsed6 {q : ℚ} (h : ¬ signDegenerate q) :
    toFixed6 (reparsed6 q) = toFixed6 q := by
  by_cases hq : q < 0
  · have hm : round6 (-q) ≠ 0 := fun h0 => h ⟨hq, h0⟩
    have hrep : reparsed6 q = -(((round6 (-q) : ℕ) : ℚ) / 1000000) := by
      unfold reparsed6; rw [if_pos hq]
    have hpos : (0 : ℚ) < ((round6 (-q) : ℕ) : ℚ) / 1000000 := by
      have hc : (0 : ℚ) < ((round6 (-q) : ℕ) : ℚ) := by
        exact_mod_cast Nat.pos_of_ne_zero hm
      positivity
    have hneg : reparsed6 q < 0 := by rw [hrep]; linarith
    unfold toFixed6
    rw [if_pos hneg, if_pos hq]
    have habs : |reparsed6 q| = ((round6 (-q) : ℕ) : ℚ) / 1000000 := by
      rw [hrep, abs_neg, abs_of_pos hpos]
    rw [habs, round6_div, abs_of_neg hq]
  · have hrep : reparsed6 q = ((round6 q : ℕ) : ℚ) / 1000000 := by
      unfold reparsed6; rw [if_neg hq]
    have hnonneg : (0 : ℚ) ≤ reparsed6 q := by rw [hrep]; positivity
    unfold toFixed6
    rw [if_neg (not_lt.mpr hnonneg), if_neg hq]
    rw [abs_of_nonneg hnonneg, hrep, round6_div, abs_of_nonneg (not_lt.mp hq)]

lemma pointsToString_reparsed {P : List Pt}
    (h : ∀ p ∈ P, ¬ signDegenerate p.x ∧ ¬ signDegenerate p.y) :
    pointsToString (P.map (fun p => (⟨reparsed6 p.x, reparsed6 p.y⟩ : Pt))) =
      pointsToString P := by
  unfold pointsToString
  rw [List.map_map]
  refine congrArg joinNL (List.map_congr_left (fun p hp => ?_))
  show fmtPoint ⟨reparsed6 p.x, reparsed6 p.y⟩ = fmtPoint p
  unfold fmtPoint
  dsimp only
  rw [toFixed6_reparsed6 (h p hp).1, toFixed6_reparsed6 (h p hp).2]

/-! ## C7 — profile text round-trip -/

/-- C7 counterexample: the strict string-level identity
`serialize(parse(serialize(P))) = serialize(P)` fails for the profile
`[(-1e-7, 0), (1, 1), (2, 0)]`: the coordinate `-1e-7` is serialized by
`toFixed(6)` as `"-0.000000"`, which `Number` reads back as the sign-less
zero, and re-serialization then prints `"0.000000"` — a different string. -/
theorem pointsToString_roundtrip_counterexample :
    pointsToString (parseProfileText (pointsToString
      [⟨-1/10000000, 0⟩, ⟨1, 1⟩, ⟨2, 0⟩])) ≠
      pointsToString [⟨-1/10000000, 0⟩, ⟨1, 1⟩, ⟨2, 0⟩] :=
  of_decide_eq_true (by with_unfolding_all rfl)

/-- C7 amended: parsing the serialized text reproduces the profile
point-for-point with every coordinate rounded to the nearest multiple of
`1e-6` — hence within `5e-7 ≤ 1e-6` of the original — and the
string-level identity `serialize(parse(serialize(P))) = serialize(P)`
holds whenever no coordinate lies in the sign-degenerate band
`(-5e-7, 0)` (where `toFixed(6)` prints `-0.000000` but `Number` reads
back a sign-less zero). -/
theorem parse_pointsToString_roundtrip (P : List Pt) :
    parseProfileText (pointsToString P) =
      P.map (fun p => (⟨reparsed6 p.x, reparsed6 p.y⟩ : Pt)) ∧
    (parseProfileText (pointsToString P)).length = P.length ∧
    (∀ p ∈ P, |reparsed6 p.x - p.x| ≤ 1/2000000 ∧
      |reparsed6 p.y - p.y| ≤ 1/2000000) ∧
    ((∀ p ∈ P, ¬ signDegenerate p.x ∧ ¬ signDegenerate p.y) →
      pointsToString (parseProfileText (pointsToString P)) = pointsToString P) := by
  refine ⟨parseProfileText_pointsToString P, ?_, ?_, ?_⟩
  · rw [parseProfileText_pointsToString P, List.length_map]
  · exact fun p _ => ⟨reparsed6_err p.x, reparsed6_err p.y⟩
  · intro h
    rw [parseProfileText_pointsToString P]
    exact pointsToString_reparsed h

/-- Witness for C7 at the profile `[(1/2, -3/2)]`: no coordinate is
sign-degenerate, so the serialized form survives a parse/serialize cycle
verbatim. -/
theorem parse_pointsToString_roundtrip_witness :
    pointsToString (parseProfileText (pointsToString [⟨1/2, -3/2⟩])) =
      pointsToString [⟨1/2, -3/2⟩] :=
  (parse_pointsToString_roundtrip [⟨1/2, -3/2⟩]).2.2.2
    (of_decide_eq_true (by with_unfolding_all rfl))
